import Mathlib

/-!
Verification of the `omg` schema-diffing and migration-generation tool.

This file gives a shallow embedding, in Lean 4, of the Go functions of the
repository that the verified properties talk about:

* the name-similarity scoring and rename-confidence classifier together with
  the rename inference engine `DetectPotentialRenames`,
* the relation-expression parser `parseRelationDefinition` and the DSL parser
  `parseDSLToModel`,
* the migration code generator (`orderChangesForUp`, `sortRelationChanges`,
  `generateRemoveRelation`, `generateRemoveType`, ...).

Go strings are modelled as `List Char` (the identifiers handled by the tool
are ASCII, where Go byte indexing and Lean character indexing agree).
Go `float64` arithmetic is idealised as exact rational arithmetic over `ℚ`;
because the Mathlib field operations on `ℚ` are irreducible, the embedded
definitions use the kernel-computable constructors (`mkRat`) and small helper
operations (`qSub`, `qMul`), which are proved equal to the usual `ℚ`
operations below.  Go `map` values are modelled as insertion-ordered
association lists: lookups agree with Go maps, and iteration order is a
deterministic stand-in for Go's unspecified map iteration order (no theorem
below depends on a particular iteration order beyond that determinism).
-/

abbrev Str := List Char

/-- Literal helper: the character list of a Lean string literal. -/
def strL (s : String) : Str := s.data

namespace GoStr

/-- Go `strings.HasPrefix(s, pre)` on character lists. -/
def goStartsWith : Str → Str → Bool
  | _, [] => true
  | [], _ :: _ => false
  | a :: as, b :: bs => a == b && goStartsWith as bs

/-- Go `strings.HasSuffix(s, suf)` on character lists. -/
def goEndsWith (s suf : Str) : Bool := goStartsWith s.reverse suf.reverse

/-- Go `strings.Contains(s, sub)` on character lists. -/
def goContains : Str → Str → Bool
  | [], sub => sub.isEmpty
  | c :: rest, sub => goStartsWith (c :: rest) sub || goContains rest sub

/-- Worker for `goSplit`: `acc` holds the current segment, reversed.  The
fuel argument makes the recursion structural: each step consumes at least
one character and exactly one unit of fuel, so the wrapper's fuel
`s.length` can never run out and the fuel-exhausted case is unreachable. -/
def goSplitAux (sep : Str) : ℕ → Str → Str → List Str
  | _, [], acc => [acc.reverse]
  | 0, s, acc => [acc.reverse ++ s]
  | fuel + 1, c :: rest, acc =>
    if goStartsWith (c :: rest) sep then
      acc.reverse :: goSplitAux sep fuel (rest.drop (sep.length - 1)) []
    else
      goSplitAux sep fuel rest (c :: acc)

/-- Go `strings.Split(s, sep)` for a non-empty separator. -/
def goSplit (s sep : Str) : List Str := goSplitAux sep s.length s []

/-- Go `strings.SplitN(s, sep, 2)` for a non-empty separator. -/
def goSplitN2 (s sep : Str) : List Str :=
  match goSplit s sep with
  | [] => [s]
  | p :: rest => if rest.isEmpty then [p] else [p, (List.intercalate sep rest)]

/-- Go `unicode.IsSpace` restricted to the ASCII range. -/
def isGoSpace (c : Char) : Bool :=
  c == ' ' || c == '\t' || c == '\n' || c == '\r' ||
    c == Char.ofNat 11 || c == Char.ofNat 12

/-- Go `strings.TrimSpace` on character lists (ASCII whitespace). -/
def goTrimSpace (s : Str) : Str :=
  ((s.dropWhile isGoSpace).reverse.dropWhile isGoSpace).reverse

/-- Go `strings.TrimPrefix(s, pre)`. -/
def goTrimPre (s pre : Str) : Str :=
  if goStartsWith s pre then s.drop pre.length else s

/-- Go `strings.ToLower` (ASCII letters; identifiers in this tool are ASCII). -/
def goToLower (s : Str) : Str := s.map Char.toLower

end GoStr

open GoStr

/-- Decimal digits of a natural number, most significant first (with fuel). -/
def natToStrAux : ℕ → ℕ → Str
  | 0, _ => []
  | fuel + 1, n =>
    if n < 10 then [Char.ofNat (48 + n)]
    else natToStrAux fuel (n / 10) ++ [Char.ofNat (48 + n % 10)]

/-- Decimal rendering of a natural number (Go `%d`). -/
def natToStr (n : ℕ) : Str := natToStrAux (n + 1) n

/-- Decimal rendering of an integer (Go `%d` on integers). -/
def intToStr (i : ℤ) : Str :=
  if i < 0 then '-' :: natToStr i.natAbs else natToStr i.natAbs

/-- Kernel-computable subtraction on `ℚ` (`a - b`), used because the
field operations of `ℚ` are irreducible; proved equal to `a - b` below. -/
def qSub (a b : ℚ) : ℚ := mkRat (a.num * b.den - b.num * a.den) (a.den * b.den)

/-- Kernel-computable multiplication on `ℚ` (`a * b`); proved equal below. -/
def qMul (a b : ℚ) : ℚ := mkRat (a.num * b.num) (a.den * b.den)

/-! ## Name similarity and rename confidence (model_tracker, `part_006`) -/

/-- Go `min(a, b, c int) int` helper used by `levenshteinDistance`. -/
def minGo (a b c : ℕ) : ℕ :=
  if a < b then (if a < c then a else c) else (if b < c then b else c)

/-- One inner iteration row of the Levenshtein matrix: given `prevRow`
starting at column `j-1` (so its head is the diagonal cell) and the cell to
the left, produce the cells `matrix[i][j..]`. -/
def levRowAux (c1 : Char) : Str → List ℕ → ℕ → List ℕ
  | [], _, _ => []
  | _ :: _, [], _ => []
  | c2 :: cs, d :: rest, left =>
    let up := rest.headD 0
    let cost := if c1 == c2 then 0 else 1
    let cell := minGo (up + 1) (left + 1) (d + cost)
    cell :: levRowAux c1 cs rest cell

/-- Outer loop of the Levenshtein matrix fill: compute row `i` from row
`i-1` (`matrix[i][0] = i`), returning the final row. -/
def levRows (s2 : Str) : Str → List ℕ → ℕ → List ℕ
  | [], prev, _ => prev
  | c1 :: cs, prev, i => levRows s2 cs (i :: levRowAux c1 s2 prev i) (i + 1)

/-- Go `levenshteinDistance(s1, s2)`: dynamic-programming edit distance,
computed row by row (the Go code stores the full matrix; only the previous
row is needed to fill the next one, so the function below is the same
computation). -/
def levenshteinDistance (s1 s2 : Str) : ℕ :=
  if s1.isEmpty then s2.length
  else if s2.isEmpty then s1.length
  else (levRows s2 s1 (List.range (s2.length + 1)) 1).getD s2.length 0

/-- Go `calculateSimilarity(name1, name2)`: similarity score in `[0,1]`. -/
def calculateSimilarity (name1 name2 : Str) : ℚ :=
  let n1 := goToLower name1
  let n2 := goToLower name2
  if n1 = n2 then mkRat 1 1
  else if goContains n1 n2 || goContains n2 n1 then
    let shorter := if n2.length < n1.length then n2.length else n1.length
    let longer := if n2.length > n1.length then n2.length else n1.length
    mkRat shorter longer
  else
    let distance := levenshteinDistance n1 n2
    let maxLen := if n2.length > n1.length then n2.length else n1.length
    qSub (mkRat 1 1) (mkRat distance maxLen)

/-- Go `ConfidenceLevel` (a string type with values `"high"`, `"medium"`,
`"low"` and `""`). -/
inductive ConfidenceLevel where
  | high
  | medium
  | low
  | none
deriving DecidableEq, Inhabited, Repr

/-- The underlying Go string value of a `ConfidenceLevel`. -/
def ConfidenceLevel.strVal : ConfidenceLevel → Str
  | .high => strL "high"
  | .medium => strL "medium"
  | .low => strL "low"
  | .none => []

/-- Go lexicographic (byte-wise) string `<`. -/
def goStrLt : Str → Str → Bool
  | [], [] => false
  | [], _ :: _ => true
  | _ :: _, [] => false
  | a :: as, b :: bs => if a < b then true else if b < a then false else goStrLt as bs

/-- Go `>` on two `ConfidenceLevel` values: because `ConfidenceLevel` is a
string type in Go, this is the lexicographic comparison of the underlying
strings (so `"medium" > "low" > "high" > ""`), not the tier order. -/
def confGtGo (a b : ConfidenceLevel) : Bool := goStrLt b.strVal a.strVal

/-- Go `determineRenameConfidence(nameSimilarity, relationSimilarity)`. -/
def determineRenameConfidence (nameSimilarity relationSimilarity : ℚ) : ConfidenceLevel :=
  if nameSimilarity ≥ mkRat 7 10 ∨ (nameSimilarity ≥ mkRat 4 10 ∧ relationSimilarity ≥ mkRat 7 10) then
    ConfidenceLevel.high
  else if nameSimilarity ≥ mkRat 3 10 ∨ relationSimilarity ≥ mkRat 7 10 then
    ConfidenceLevel.medium
  else if nameSimilarity ≥ mkRat 2 10 ∨ relationSimilarity ≥ mkRat 5 10 then
    ConfidenceLevel.low
  else
    ConfidenceLevel.none

/-- Go `ChangeType` (the seven change-kind tags the tool constructs). -/
inductive ChangeType where
  | addType
  | removeType
  | renameType
  | addRelation
  | removeRelation
  | renameRelation
  | updateRelation
deriving DecidableEq, Inhabited, Repr

/-- Go `ModelChange`. -/
structure ModelChange where
  type : ChangeType
  typeName : Str := []
  relationName : Str := []
  oldValue : Str := []
  newValue : Str := []
  details : Str := []
  confidence : ConfidenceLevel := ConfidenceLevel.none
deriving DecidableEq, Inhabited, Repr

/-- Go `TypeState` (relations: relation name -> serialized definition). -/
structure TypeState where
  name : Str
  relations : List (Str × Str)
deriving DecidableEq, Inhabited, Repr

/-- Go `ModelState` (types: type name -> `TypeState`). -/
structure ModelState where
  types : List (Str × TypeState)
deriving DecidableEq, Inhabited, Repr

/-- Lookup in an association list modelling a Go map read. -/
def alookup {α : Type} (k : Str) : List (Str × α) → Option α
  | [] => Option.none
  | (k2, v) :: rest => if k2 = k then some v else alookup k rest

/-- Go `haveSimilarRelations`: Jaccard coefficient of the relation-name
sets of the two type states (0 when either side has no relations). -/
def haveSimilarRelations (removedTypeState addedTypeState : TypeState) : ℚ :=
  if removedTypeState.relations.length = 0 ∧ addedTypeState.relations.length = 0 then mkRat 0 1
  else if removedTypeState.relations.length = 0 ∨ addedTypeState.relations.length = 0 then mkRat 0 1
  else
    let matchingRelations :=
      removedTypeState.relations.countP (fun p => (alookup p.1 addedTypeState.relations).isSome)
    let totalRelations :=
      removedTypeState.relations.length + addedTypeState.relations.length - matchingRelations
    if totalRelations = 0 then mkRat 0 1 else mkRat matchingRelations totalRelations

/-- Floor of a rational as an integer (`⌊q⌋`), kernel-computable. -/
def ratFloorZ (q : ℚ) : ℤ := Int.fdiv q.num q.den

/-- Go `fmt` `%.0f` rounding: round to nearest integer, halves to even. -/
def roundF0 (q : ℚ) : ℤ :=
  let f := ratFloorZ q
  let r := qSub q (mkRat f 1)
  if r > mkRat 1 2 then f + 1
  else if r < mkRat 1 2 then f
  else if f % 2 = 0 then f else f + 1

/-- Go `fmt.Sprintf` of `%.0f` applied to `q * 100` (a percentage). -/
def pctF0 (q : ℚ) : Str := intToStr (roundF0 (qMul q (mkRat 100 1)))

/-- The `detailsMsg` built for a type rename in `DetectPotentialRenames`
(the Go code sets a default message and overrides it per confidence case). -/
def typeRenameDetails (removedName addedName : Str) (conf : ConfidenceLevel)
    (nameSim relSim : ℚ) : Str :=
  match conf with
  | .high =>
    strL "Rename detected: \x27" ++ removedName ++ strL "\x27 -> \x27" ++ addedName ++
      strL "\x27 (high confidence: " ++ pctF0 nameSim ++ strL "% name, " ++
      pctF0 relSim ++ strL "% relations)"
  | .medium =>
    strL "Possible rename: \x27" ++ removedName ++ strL "\x27 -> \x27" ++ addedName ++
      strL "\x27 (medium confidence - review required)"
  | .low =>
    strL "Potential rename: \x27" ++ removedName ++ strL "\x27 -> \x27" ++ addedName ++
      strL "\x27 (low confidence - verify before using)"
  | .none =>
    strL "Rename detected: \x27" ++ removedName ++ strL "\x27 -> \x27" ++ addedName ++ strL "\x27"

/-- The `detailsMsg` built for a relation rename (default is the empty
string, overridden per confidence case). -/
def relRenameDetails (typeName removedRel addedRel : Str) (conf : ConfidenceLevel)
    (sim : ℚ) : Str :=
  match conf with
  | .high =>
    strL "Rename detected: \x27" ++ typeName ++ strL "." ++ removedRel ++
      strL "\x27 -> \x27" ++ typeName ++ strL "." ++ addedRel ++
      strL "\x27 (high confidence: " ++ pctF0 sim ++ strL "%)"
  | .medium =>
    strL "Possible rename: \x27" ++ typeName ++ strL "." ++ removedRel ++
      strL "\x27 -> \x27" ++ typeName ++ strL "." ++ addedRel ++
      strL "\x27 (medium confidence - review required)"
  | .low =>
    strL "Potential rename: \x27" ++ typeName ++ strL "." ++ removedRel ++
      strL "\x27 -> \x27" ++ typeName ++ strL "." ++ addedRel ++
      strL "\x27 (low confidence - verify before using)"
  | .none => []

/-- The best-candidate tracking state of the inner loops of
`DetectPotentialRenames` (`bestMatch = -1` is modelled as `Option.none`). -/
structure BestT where
  bestMatch : Option ℕ
  bestConfidence : ConfidenceLevel
  bestNameSim : ℚ
  bestRelSim : ℚ
deriving DecidableEq, Inhabited, Repr

/-- Inner candidate loop of `DetectPotentialRenames`: scan the added
changes with index `j`, skipping used ones, keeping the best candidate by
the Go comparison `confidence > bestConfidence` (a string comparison) with
ties broken by `nameSim > bestNameSim`. -/
def bestScan (score : ModelChange → (ConfidenceLevel × ℚ × ℚ)) :
    List ModelChange → ℕ → List Bool → BestT → BestT
  | [], _, _, best => best
  | added :: rest, j, usedAdd, best =>
    if usedAdd.getD j false then bestScan score rest (j + 1) usedAdd best
    else
      let s := score added
      let best' :=
        if s.1 ≠ ConfidenceLevel.none ∧
            (best.bestMatch = Option.none ∨ confGtGo s.1 best.bestConfidence = true ∨
              (s.1 = best.bestConfidence ∧ s.2.1 > best.bestNameSim)) then
          BestT.mk (some j) s.1 s.2.1 s.2.2
        else best
      bestScan score rest (j + 1) usedAdd best'

/-- Outer matching loop of `DetectPotentialRenames`, common shape of the
type-level and relation-level passes (the Go source repeats this code for
the two granularities; `score` and `mkRen` instantiate the differences).
Returns the emitted rename changes (in removal order), the per-removal
matched flags (`usedRemovals`), and the final `usedAdditions` flags. -/
def matchLoop (score : ModelChange → ModelChange → (ConfidenceLevel × ℚ × ℚ))
    (mkRen : ModelChange → ModelChange → BestT → ModelChange)
    (addedL : List ModelChange) :
    List ModelChange → List Bool → (List ModelChange × List Bool × List Bool)
  | [], usedAdd => ([], [], usedAdd)
  | removed :: rest, usedAdd =>
    let best := bestScan (score removed) addedL 0 usedAdd
      (BestT.mk Option.none ConfidenceLevel.none (mkRat 0 1) (mkRat 0 1))
    match best.bestMatch with
    | some j =>
      let res := matchLoop score mkRen addedL rest (usedAdd.set j true)
      (mkRen removed (addedL.getD j default) best :: res.1, true :: res.2.1, res.2.2)
    | Option.none =>
      let res := matchLoop score mkRen addedL rest usedAdd
      (res.1, false :: res.2.1, res.2.2)

/-- The pass-through loops `for i, change := range ... if !used[i]`:
elements whose flag is `false`. -/
def unmatchedOf (l : List ModelChange) (flags : List Bool) : List ModelChange :=
  (l.zip flags).filterMap (fun p => if p.2 then Option.none else some p.1)

/-- Candidate scoring of the type-level pass (name similarity plus relation
similarity read from the two model states when both are present). -/
def scoreType (oldState newState : Option ModelState)
    (removed added : ModelChange) : ConfidenceLevel × ℚ × ℚ :=
  let nameSim := calculateSimilarity removed.typeName added.typeName
  let relSim :=
    match oldState, newState with
    | some o, some n =>
      match alookup removed.typeName o.types, alookup added.typeName n.types with
      | some ot, some nt => haveSimilarRelations ot nt
      | _, _ => mkRat 0 1
    | _, _ => mkRat 0 1
  (determineRenameConfidence nameSim relSim, nameSim, relSim)

/-- The `ChangeTypeRenameType` change emitted for a matched type pair. -/
def mkRenType (removed added : ModelChange) (best : BestT) : ModelChange :=
  { type := ChangeType.renameType
    typeName := removed.typeName
    oldValue := removed.typeName
    newValue := added.typeName
    confidence := best.bestConfidence
    details := typeRenameDetails removed.typeName added.typeName best.bestConfidence
      best.bestNameSim best.bestRelSim }

/-- Candidate scoring of the relation-level pass (name similarity only;
relation similarity is passed as `0.0`). -/
def scoreRel (removed added : ModelChange) : ConfidenceLevel × ℚ × ℚ :=
  let sim := calculateSimilarity removed.relationName added.relationName
  (determineRenameConfidence sim (mkRat 0 1), sim, mkRat 0 1)

/-- The `ChangeTypeRenameRelation` change emitted for a matched relation
pair within type `tn`. -/
def mkRenRel (tn : Str) (removed added : ModelChange) (best : BestT) : ModelChange :=
  { type := ChangeType.renameRelation
    typeName := tn
    relationName := removed.relationName
    oldValue := removed.relationName
    newValue := added.relationName
    confidence := best.bestConfidence
    details := relRenameDetails tn removed.relationName added.relationName
      best.bestConfidence best.bestNameSim }

/-- Insert an added-relation change into the `relationsByType` grouping. -/
def addGroupEntryA (gs : List (Str × (List ModelChange × List ModelChange)))
    (c : ModelChange) : List (Str × (List ModelChange × List ModelChange)) :=
  match gs with
  | [] => [(c.typeName, ([c], []))]
  | (k, e) :: rest =>
    if k = c.typeName then (k, (e.1 ++ [c], e.2)) :: rest
    else (k, e) :: addGroupEntryA rest c

/-- Insert a removed-relation change into the `relationsByType` grouping. -/
def addGroupEntryR (gs : List (Str × (List ModelChange × List ModelChange)))
    (c : ModelChange) : List (Str × (List ModelChange × List ModelChange)) :=
  match gs with
  | [] => [(c.typeName, ([], [c]))]
  | (k, e) :: rest =>
    if k = c.typeName then (k, (e.1, e.2 ++ [c])) :: rest
    else (k, e) :: addGroupEntryR rest c

/-- The Go `relationsByType` map: added/removed relation changes grouped by
type name (insertion-ordered association list). -/
def relationsByType (addedRelations removedRelations : List ModelChange) :
    List (Str × (List ModelChange × List ModelChange)) :=
  removedRelations.foldl addGroupEntryR (addedRelations.foldl addGroupEntryA [])

/-- Body of the per-type-name loop of the relation-level pass. -/
def processRelGroup (g : Str × (List ModelChange × List ModelChange)) : List ModelChange :=
  let res := matchLoop scoreRel (mkRenRel g.1) g.2.1 g.2.2 (List.replicate g.2.1.length false)
  res.1 ++ unmatchedOf g.2.2 res.2.1 ++ unmatchedOf g.2.1 res.2.2

/-- Whether a change is handled by one of the four grouped cases of the
partitioning switch of `DetectPotentialRenames` (everything else goes to
the `default:` branch and passes through). -/
def isGrouped (c : ModelChange) : Bool :=
  c.type == ChangeType.addType || c.type == ChangeType.removeType ||
    c.type == ChangeType.addRelation || c.type == ChangeType.removeRelation

/-- Go `DetectPotentialRenames(changes, oldState, newState)` (a `nil` state
pointer is modelled as `Option.none`). -/
def DetectPotentialRenames (changes : List ModelChange)
    (oldState newState : Option ModelState) : List ModelChange :=
  let addedTypes := changes.filter (fun c => c.type == ChangeType.addType)
  let removedTypes := changes.filter (fun c => c.type == ChangeType.removeType)
  let addedRelations := changes.filter (fun c => c.type == ChangeType.addRelation)
  let removedRelations := changes.filter (fun c => c.type == ChangeType.removeRelation)
  let enhanced0 := changes.filter (fun c => !(isGrouped c))
  let resT := matchLoop (scoreType oldState newState) mkRenType addedTypes removedTypes
    (List.replicate addedTypes.length false)
  let typeSeg := resT.1 ++ unmatchedOf removedTypes resT.2.1 ++ unmatchedOf addedTypes resT.2.2
  let relSeg := ((relationsByType addedRelations removedRelations).map processRelGroup).flatten
  enhanced0 ++ typeSeg ++ relSeg

/-! ## DSL and relation-expression parser (`part_004`) -/

/-- Go `strings.TrimSuffix(s, suf)`. -/
def goTrimSuf (s suf : Str) : Str :=
  if goEndsWith s suf then s.take (s.length - suf.length) else s

/-- Worker for `goIndexOf`. -/
def goIndexOfAux (sub : Str) : Str → ℕ → Option ℕ
  | [], i => if sub.isEmpty then some i else Option.none
  | c :: rest, i =>
    if goStartsWith (c :: rest) sub then some i else goIndexOfAux sub rest (i + 1)

/-- Go `strings.Index(s, sub)` (`Option.none` models `-1`). -/
def goIndexOf (s sub : Str) : Option ℕ := goIndexOfAux sub s 0

/-- The userset expression tree produced by `parseRelationDefinition`
(the Go `openfgaSdk.Userset` with exactly one variant set). -/
inductive Userset where
  | direct
  | computed (relation : Str)
  | union (children : List Userset)
  | intersection (children : List Userset)
  | difference (base subtract : Userset)
  | ttu (tupleset computedRel : Str)
deriving Inhabited, Repr

/-- Go `openfgaSdk.RelationReference` (a type, or `type#relation`). -/
structure RelationReference where
  type : Str
  relation : Option Str := Option.none
deriving DecidableEq, Inhabited, Repr

/-- The validation loop of the direct-assignment branch of
`parseRelationDefinition` (builds the type restrictions, erroring on a
malformed `type#relation` token; the Go parser then discards the list). -/
def parseTypeRefs : List Str → Except Str (List RelationReference)
  | [] => Except.ok []
  | t0 :: ts =>
    let t := goTrimSpace t0
    if t.isEmpty then parseTypeRefs ts
    else if goContains t (strL "#") then
      if (goSplit t (strL "#")).length ≠ 2 then
        Except.error (strL "invalid type#relation format: " ++ t)
      else do
        let restRefs ← parseTypeRefs ts
        Except.ok (RelationReference.mk ((goSplit t (strL "#")).getD 0 [])
          (some ((goSplit t (strL "#")).getD 1 [])) :: restRefs)
    else do
      let restRefs ← parseTypeRefs ts
      Except.ok (RelationReference.mk t Option.none :: restRefs)

/-- The Go regular expression `^[a-zA-Z_][a-zA-Z0-9_]*$`. -/
def isBareIdent (s : Str) : Bool :=
  match s with
  | [] => false
  | c :: cs =>
    (c.isAlpha || c == '_') && cs.all (fun x => x.isAlpha || x.isDigit || x == '_')

/-- The recursive `for _, part := range parts` loops of the union and
intersection branches: parse each trimmed segment with the given parser,
stopping at the first error. -/
def parseChildrenWith (f : Str → Except Str Userset) : List Str → Except Str (List Userset)
  | [] => Except.ok []
  | p :: ps =>
    match f (goTrimSpace p) with
    | Except.error e => Except.error e
    | Except.ok child =>
      match parseChildrenWith f ps with
      | Except.error e => Except.error e
      | Except.ok children => Except.ok (child :: children)

/-- Go `parseRelationDefinition(def)`, with a fuel parameter for the
recursion: every Go recursive call is on a strict substring of `def`, so
the wrapper's fuel `def.length + 1` can never run out. -/
def parseRelDefFuel : ℕ → Str → Except Str Userset
  | 0, _ => Except.error (strL "recursion limit")
  | fuel + 1, d =>
    if goContains d (strL " or ") then
      match parseChildrenWith (parseRelDefFuel fuel) (goSplit d (strL " or ")) with
      | Except.error e => Except.error e
      | Except.ok children => Except.ok (Userset.union children)
    else if goContains d (strL " and ") then
      match parseChildrenWith (parseRelDefFuel fuel) (goSplit d (strL " and ")) with
      | Except.error e => Except.error e
      | Except.ok children => Except.ok (Userset.intersection children)
    else if goContains d (strL " but not ") then
      let parts := goSplit d (strL " but not ")
      if parts.length ≠ 2 then
        Except.error (strL "invalid \x27but not\x27 syntax: " ++ d)
      else
        match parseRelDefFuel fuel (goTrimSpace (parts.getD 0 [])) with
        | Except.error e => Except.error e
        | Except.ok base =>
          match parseRelDefFuel fuel (goTrimSpace (parts.getD 1 [])) with
          | Except.error e => Except.error e
          | Except.ok subtract => Except.ok (Userset.difference base subtract)
    else if goStartsWith d (strL "[") && goEndsWith d (strL "]") then
      let typesStr := goTrimPre (goTrimSuf d (strL "]")) (strL "[")
      match parseTypeRefs (goSplit typesStr (strL ",")) with
      | Except.error e => Except.error e
      | Except.ok _ => Except.ok Userset.direct
    else if goContains d (strL " from ") then
      let parts := goSplit d (strL " from ")
      if parts.length ≠ 2 then
        Except.error (strL "invalid \x27from\x27 syntax: " ++ d)
      else
        Except.ok (Userset.ttu (goTrimSpace (parts.getD 1 []))
          (goTrimSpace (parts.getD 0 [])))
    else if goContains d (strL "->") then
      let parts := goSplit d (strL "->")
      if parts.length ≠ 2 then
        Except.error (strL "invalid tuple-to-userset format: " ++ d)
      else
        Except.ok (Userset.ttu (goTrimSpace (parts.getD 0 []))
          (goTrimSpace (parts.getD 1 [])))
    else if isBareIdent d then
      Except.ok (Userset.computed d)
    else
      Except.error (strL "unable to parse relation definition: " ++ d)


/-- Go `parseRelationDefinition(def)` (the fuel wrapper; see
`parseRelDefFuel`). -/
def parseRelationDefinition (d : Str) : Except Str Userset :=
  parseRelDefFuel (d.length + 1) d

/-- Go `openfgaSdk.TypeDefinition`, with its relation map and the
per-relation `DirectlyRelatedUserTypes` metadata flattened into
insertion-ordered association lists. -/
structure TypeDefinition where
  type : Str
  relations : List (Str × Userset) := []
  metadata : List (Str × List RelationReference) := []
deriving Inhabited, Repr

/-- Go `openfgaSdk.AuthorizationModel` (schema version and type list). -/
structure AuthorizationModel where
  schemaVersion : Str
  typeDefinitions : List TypeDefinition := []
deriving Inhabited, Repr

/-- Go map insert (`m[k] = v`): replace the binding if present, else
append. -/
def aupsert {α : Type} (k : Str) (v : α) : List (Str × α) → List (Str × α)
  | [] => [(k, v)]
  | (k2, v2) :: rest => if k2 = k then (k, v) :: rest else (k2, v2) :: aupsert k v rest

/-- Go `extractTypeRestrictions(def)`: the `for _, t := range typeList`
loop of the bracket branch (malformed `type#relation` tokens are skipped,
not errors, in this function). -/
def refsOfList : List Str → List RelationReference
  | [] => []
  | t0 :: ts =>
    let t := goTrimSpace t0
    if t.isEmpty then refsOfList ts
    else if goContains t (strL "#") then
      (if (goSplit t (strL "#")).length = 2 then
        [RelationReference.mk ((goSplit t (strL "#")).getD 0 [])
          (some ((goSplit t (strL "#")).getD 1 []))]
      else []) ++ refsOfList ts
    else RelationReference.mk t Option.none :: refsOfList ts

/-- Go `extractTypeRestrictions(def)`. -/
def extractTypeRestrictions (d : Str) : List RelationReference :=
  if goContains d (strL " from ") && ((goSplit d (strL " from ")).length == 2) then
    [RelationReference.mk (goTrimSpace ((goSplit d (strL " from ")).getD 1 [])) Option.none]
  else if goContains d (strL "->") && ((goSplit d (strL "->")).length == 2) then
    [RelationReference.mk (goTrimSpace ((goSplit d (strL "->")).getD 0 [])) Option.none]
  else if !(goContains d (strL "[")) || !(goContains d (strL "]")) then []
  else
    match goIndexOf d (strL "["), goIndexOf d (strL "]") with
    | some s, some e =>
      if e ≤ s then []
      else refsOfList (goSplit ((d.take e).drop (s + 1)) (strL ","))
    | _, _ => []

/-- The body of the `define` case of `parseDSLToModel`: insert the parsed
relation and, for direct (bracketed) definitions with a non-empty
restriction list, record the type-restriction metadata. -/
def applyDefine (ct : TypeDefinition) (relationName : Str) (relationDef : Str)
    (userset : Userset) : TypeDefinition :=
  let ct1 := { ct with relations := aupsert relationName userset ct.relations }
  let typeRestrictions := extractTypeRestrictions relationDef
  let isDirect := goContains relationDef (strL "[")
  if typeRestrictions.length > 0 && isDirect then
    { ct1 with metadata := aupsert relationName typeRestrictions ct1.metadata }
  else ct1

/-- The line loop of Go `parseDSLToModel` (`i` is the 0-based index of the
current line in the full line list; errors report `i+1`). -/
def parseDSLLines : List Str → ℕ → AuthorizationModel → Option TypeDefinition → Bool →
    Except Str AuthorizationModel
  | [], _, model, currentType, _ =>
    match currentType with
    | some t => Except.ok { model with typeDefinitions := model.typeDefinitions ++ [t] }
    | Option.none => Except.ok model
  | line0 :: rest, i, model, currentType, inRelations =>
    let line := goTrimSpace line0
    if line.isEmpty || goStartsWith line (strL "#") then
      parseDSLLines rest (i + 1) model currentType inRelations
    else if goStartsWith line (strL "schema ") then
      let version := goTrimSpace (goTrimPre line (strL "schema"))
      parseDSLLines rest (i + 1) { model with schemaVersion := version } currentType inRelations
    else if line = strL "model" then
      parseDSLLines rest (i + 1) model currentType inRelations
    else if goStartsWith line (strL "type ") then
      let model2 :=
        match currentType with
        | some t => { model with typeDefinitions := model.typeDefinitions ++ [t] }
        | Option.none => model
      let typeName := goTrimSpace (goTrimPre line (strL "type"))
      parseDSLLines rest (i + 1) model2 (some (TypeDefinition.mk typeName [] [])) false
    else if line = strL "relations" then
      parseDSLLines rest (i + 1) model currentType true
    else if inRelations && goStartsWith line (strL "define ") then
      match currentType with
      | Option.none =>
        Except.error (strL "relation defined outside of type at line " ++ natToStr (i + 1))
      | some ct =>
        let defineStr := goTrimSpace (goTrimPre line (strL "define"))
        let parts := goSplitN2 defineStr (strL ":")
        if parts.length ≠ 2 then
          Except.error (strL "invalid relation definition at line " ++ natToStr (i + 1) ++
            strL ": " ++ line)
        else
          let relationName := goTrimSpace (parts.getD 0 [])
          let relationDef := goTrimSpace (parts.getD 1 [])
          match parseRelationDefinition relationDef with
          | Except.error e =>
            Except.error (strL "failed to parse relation \x27" ++ relationName ++
              strL "\x27 at line " ++ natToStr (i + 1) ++ strL ": " ++ e)
          | Except.ok userset =>
            parseDSLLines rest (i + 1) model
              (some (applyDefine ct relationName relationDef userset)) inRelations
    else
      parseDSLLines rest (i + 1) model currentType inRelations

/-- Go `parseDSLToModel(dsl)`: split into lines and run the state machine
(initial schema version `"1.1"`, no open type, not inside a relations
block). -/
def parseDSLToModel (dsl : Str) : Except Str AuthorizationModel :=
  parseDSLLines (goSplit dsl (strL "\n")) 0 (AuthorizationModel.mk (strL "1.1") []) Option.none false

/-! ## Migration code generator (`pkg/migration_generator.go`) -/

/-- Go `strings.ReplaceAll(s, old, new)` for a non-empty `old`. -/
def goReplaceAll (s old new : Str) : Str := List.intercalate new (goSplit s old)

/-- Go `extractRelationDefinition(serialized)`: fall back to `"[user]"`
when empty, else escape double quotes for embedding in a Go string
literal. -/
def extractRelationDefinition (serialized : Str) : Str :=
  if serialized.isEmpty then strL "[user]"
  else goReplaceAll serialized (strL "\"") (strL "\\\"")

/-- Go `sanitizeName(name)`: lower-case, spaces and hyphens to
underscores, and keep only `[a-z0-9_]`. -/
def sanitizeName (name : Str) : Str :=
  let n1 := goReplaceAll (goReplaceAll (goToLower name) (strL " ") (strL "_")) (strL "-") (strL "_")
  n1.filter (fun r => r.isLower || r.isDigit || r == '_')

/-- Go `generateAddType(change)` (the `fmt.Sprintf` already applied). -/
def generateAddType (change : ModelChange) : Str :=
  strL "\t// Add type: " ++
    change.typeName ++
    strL "\n\t// TODO: Define relations for this type\n\tif err := omg.AddTypeToModel(ctx, client, \"" ++
    change.typeName ++
    strL "\", map[string]string\x7b\n\t\t// Add your relations here\n\t\t// \"owner\": \"[user]\",\n\t\x7d); err != nil \x7b\n\t\treturn fmt.Errorf(\"failed to add type " ++
    change.typeName ++
    strL ": %w\", err)\n\t\x7d\n\n"

/-- Go `generateAddRelation(change)`. -/
def generateAddRelation (change : ModelChange) : Str :=
  let d := extractRelationDefinition change.newValue
  strL "\t// Add relation: " ++
    change.typeName ++
    strL "." ++
    change.relationName ++
    strL "\n\tif err := omg.AddRelationToType(ctx, client, \"" ++
    change.typeName ++
    strL "\", \"" ++
    change.relationName ++
    strL "\", \"" ++
    d ++
    strL "\"); err != nil \x7b\n\t\treturn fmt.Errorf(\"failed to add relation: %w\", err)\n\t\x7d\n\n"

/-- Go `generateUpdateRelation(change)`. -/
def generateUpdateRelation (change : ModelChange) : Str :=
  let d := extractRelationDefinition change.newValue
  strL "\t// Update relation: " ++
    change.typeName ++
    strL "." ++
    change.relationName ++
    strL "\n\tif err := omg.UpdateRelationDefinition(ctx, client, \"" ++
    change.typeName ++
    strL "\", \"" ++
    change.relationName ++
    strL "\", \"" ++
    d ++
    strL "\"); err != nil \x7b\n\t\treturn fmt.Errorf(\"failed to update relation: %w\", err)\n\t\x7d\n\n"

/-- Go `generateRenameRelation(change)`: one template per
confidence tier (`default:` covers `ConfidenceLevel.none`). -/
def generateRenameRelation (change : ModelChange) : Str :=
  match change.confidence with
  | ConfidenceLevel.high =>
    strL "\t// Rename relation: " ++
      change.typeName ++
      strL "." ++
      change.oldValue ++
      strL " -> " ++
      change.typeName ++
      strL "." ++
      change.newValue ++
      strL " (high confidence)\n\t// This will copy all tuples from the old relation to the new one\n\tif err := omg.RenameRelation(ctx, client, \"" ++
      change.typeName ++
      strL "\", \"" ++
      change.oldValue ++
      strL "\", \"" ++
      change.newValue ++
      strL "\"); err != nil \x7b\n\t\treturn fmt.Errorf(\"failed to rename relation: %w\", err)\n\t\x7d\n\n"
  | ConfidenceLevel.medium =>
    strL "\t// ⚠️  REVIEW REQUIRED: Possible relation rename\n\t// Detected: " ++
      change.typeName ++
      strL "." ++
      change.oldValue ++
      strL " -> " ++
      change.typeName ++
      strL "." ++
      change.newValue ++
      strL "\n\t//\n\t// This appears to be a rename. Review and confirm before applying.\n\t// If correct, this will preserve all existing tuples.\n\t//\n\tif err := omg.RenameRelation(ctx, client, \"" ++
      change.typeName ++
      strL "\", \"" ++
      change.oldValue ++
      strL "\", \"" ++
      change.newValue ++
      strL "\"); err != nil \x7b\n\t\treturn fmt.Errorf(\"failed to rename relation: %w\", err)\n\t\x7d\n\n"
  | ConfidenceLevel.low =>
    strL "\t// ⚠️  MANUAL REVIEW REQUIRED ⚠️\n\t// Potential relation rename: " ++
      change.typeName ++
      strL "." ++
      change.oldValue ++
      strL " -> " ++
      change.typeName ++
      strL "." ++
      change.newValue ++
      strL " (low confidence)\n\t//\n\t// OPTION 1: If this IS a rename (preserve tuples), uncomment:\n\t// if err := omg.RenameRelation(ctx, client, \"" ++
      change.typeName ++
      strL "\", \"" ++
      change.oldValue ++
      strL "\", \"" ++
      change.newValue ++
      strL "\"); err != nil \x7b\n\t// \treturn fmt.Errorf(\"failed to rename relation: %w\", err)\n\t// \x7d\n\t//\n\t// OPTION 2: If these are separate relations (default, safe):\n\n\t// Remove old relation (new relation already in model.fga)\n\ttuples, err := omg.ReadAllTuples(ctx, client, \"" ++
      change.typeName ++
      strL "\", \"" ++
      change.oldValue ++
      strL "\")\n\tif err != nil \x7b\n\t\treturn fmt.Errorf(\"failed to read tuples: %w\", err)\n\t\x7d\n\tif len(tuples) > 0 \x7b\n\t\tfmt.Printf(\"⚠️  Deleting %d tuples from relation \x27" ++
      change.typeName ++
      strL "." ++
      change.oldValue ++
      strL "\x27\\n\", len(tuples))\n\t\tif err := omg.DeleteTuplesBatch(ctx, client, tuples); err != nil \x7b\n\t\t\treturn fmt.Errorf(\"failed to delete tuples: %w\", err)\n\t\t\x7d\n\t\x7d\n\tif err := omg.RemoveRelationFromType(ctx, client, \"" ++
      change.typeName ++
      strL "\", \"" ++
      change.oldValue ++
      strL "\"); err != nil \x7b\n\t\treturn fmt.Errorf(\"failed to remove old relation: %w\", err)\n\t\x7d\n\n"
  | ConfidenceLevel.none =>
    strL "\t// Rename relation: " ++
      change.typeName ++
      strL "." ++
      change.oldValue ++
      strL " -> " ++
      change.typeName ++
      strL "." ++
      change.newValue ++
      strL "\n\tif err := omg.RenameRelation(ctx, client, \"" ++
      change.typeName ++
      strL "\", \"" ++
      change.oldValue ++
      strL "\", \"" ++
      change.newValue ++
      strL "\"); err != nil \x7b\n\t\treturn fmt.Errorf(\"failed to rename relation: %w\", err)\n\t\x7d\n\n"

/-- Go `generateRemoveRelation(change)`: note the emitted code calls
`omg.RemoveRelationFromType` (step 1) before `omg.DeleteRelation`
(step 2). -/
def generateRemoveRelation (change : ModelChange) : Str :=
  strL "\t// Remove relation: " ++
    change.typeName ++
    strL "." ++
    change.relationName ++
    strL "\n\t// Step 1: Remove from model\n\tif err := omg.RemoveRelationFromType(ctx, client, \"" ++
    change.typeName ++
    strL "\", \"" ++
    change.relationName ++
    strL "\"); err != nil \x7b\n\t\treturn fmt.Errorf(\"failed to remove relation from model: %w\", err)\n\t\x7d\n\n\t// Step 2: Delete all tuples with this relation\n\tif err := omg.DeleteRelation(ctx, client, \"" ++
    change.typeName ++
    strL "\", \"" ++
    change.relationName ++
    strL "\"); err != nil \x7b\n\t\treturn fmt.Errorf(\"failed to delete tuples: %w\", err)\n\t\x7d\n\n"

/-- Go `generateRenameType(change)`. -/
def generateRenameType (change : ModelChange) : Str :=
  match change.confidence with
  | ConfidenceLevel.high =>
    strL "\t// Rename type: " ++
      change.oldValue ++
      strL " -> " ++
      change.newValue ++
      strL " (high confidence rename detected)\n\t// This will migrate all existing tuples to the new type name\n\tif err := omg.RenameType(ctx, client, \"" ++
      change.oldValue ++
      strL "\", \"" ++
      change.newValue ++
      strL "\"); err != nil \x7b\n\t\treturn fmt.Errorf(\"failed to rename type: %w\", err)\n\t\x7d\n\n"
  | ConfidenceLevel.medium =>
    strL "\t// ⚠️  REVIEW REQUIRED: Possible rename detected\n\t// Detected: " ++
      change.oldValue ++
      strL " -> " ++
      change.newValue ++
      strL "\n\t//\n\t// This appears to be a rename based on similarity analysis.\n\t// If this IS a rename (preserving tuples), keep the code below.\n\t// If these are separate types, replace with AddType + DeleteType operations.\n\t//\n\tif err := omg.RenameType(ctx, client, \"" ++
      change.oldValue ++
      strL "\", \"" ++
      change.newValue ++
      strL "\"); err != nil \x7b\n\t\treturn fmt.Errorf(\"failed to rename type: %w\", err)\n\t\x7d\n\n"
  | ConfidenceLevel.low =>
    strL "\t// ⚠️  MANUAL REVIEW REQUIRED ⚠️\n\t// Detected potential rename: " ++
      change.oldValue ++
      strL " -> " ++
      change.newValue ++
      strL " (low confidence)\n\t//\n\t// OPTION 1: If this IS a rename (preserve tuples), uncomment:\n\t// if err := omg.RenameType(ctx, client, \"" ++
      change.oldValue ++
      strL "\", \"" ++
      change.newValue ++
      strL "\"); err != nil \x7b\n\t// \treturn fmt.Errorf(\"failed to rename type: %w\", err)\n\t// \x7d\n\t//\n\t// OPTION 2: If these are separate types (default, safe option):\n\n\t// Add new type (already in model.fga)\n\t// The new model definition is already applied\n\n\t// Delete old type and its tuples\n\ttuples, err := omg.ReadAllTuples(ctx, client, \"" ++
      change.oldValue ++
      strL "\", \"\")\n\tif err != nil \x7b\n\t\treturn fmt.Errorf(\"failed to read tuples: %w\", err)\n\t\x7d\n\tif len(tuples) > 0 \x7b\n\t\tfmt.Printf(\"⚠️  Deleting %d tuples of type \x27" ++
      change.oldValue ++
      strL "\x27\\n\", len(tuples))\n\t\tif err := omg.DeleteTuplesBatch(ctx, client, tuples); err != nil \x7b\n\t\t\treturn fmt.Errorf(\"failed to delete tuples: %w\", err)\n\t\t\x7d\n\t\x7d\n\tif err := omg.RemoveTypeFromModel(ctx, client, \"" ++
      change.oldValue ++
      strL "\"); err != nil \x7b\n\t\treturn fmt.Errorf(\"failed to remove old type: %w\", err)\n\t\x7d\n\n"
  | ConfidenceLevel.none =>
    strL "\t// Rename type: " ++
      change.oldValue ++
      strL " -> " ++
      change.newValue ++
      strL "\n\tif err := omg.RenameType(ctx, client, \"" ++
      change.oldValue ++
      strL "\", \"" ++
      change.newValue ++
      strL "\"); err != nil \x7b\n\t\treturn fmt.Errorf(\"failed to rename type: %w\", err)\n\t\x7d\n\n"

/-- Go `generateRemoveType(change)`: read and batch-delete the tuples
of the type (step 1), then remove the type from the model (step 2). -/
def generateRemoveType (change : ModelChange) : Str :=
  strL "\t// Remove type: " ++
    change.typeName ++
    strL "\n\t// Step 1: Delete all tuples of this type\n\t\x7b\n\t\ttuples, err := omg.ReadAllTuples(ctx, client, \"" ++
    change.typeName ++
    strL "\", \"\")\n\t\tif err != nil \x7b\n\t\t\treturn fmt.Errorf(\"failed to read tuples: %w\", err)\n\t\t\x7d\n\n\t\tif len(tuples) > 0 \x7b\n\t\t\tfmt.Printf(\"Deleting %d tuples of type " ++
    change.typeName ++
    strL "\\n\", len(tuples))\n\t\t\tif err := omg.DeleteTuplesBatch(ctx, client, tuples); err != nil \x7b\n\t\t\t\treturn fmt.Errorf(\"failed to delete tuples: %w\", err)\n\t\t\t\x7d\n\t\t\x7d\n\t\x7d\n\n\t// Step 2: Remove type from model\n\tif err := omg.RemoveTypeFromModel(ctx, client, \"" ++
    change.typeName ++
    strL "\"); err != nil \x7b\n\t\treturn fmt.Errorf(\"failed to remove type from model: %w\", err)\n\t\x7d\n\n"

/-- The three raw header pieces of `generateMigrationCode` around the
sanitized name and the version. -/
def migrationHeader (version name : Str) : Str :=
  strL "package main\n\n// Migration: " ++ sanitizeName name ++
    strL "\n// Version: " ++ version ++
    strL "\n// Auto-generated migration\n\nimport (\n\t\"context\"\n\t\"fmt\"\n\t\"os\"\n\n\tomg \"github.com/demetere/omg\"\n)\n\nfunc main() \x7b\n\t// Get connection info from environment\n\tclient, err := omg.NewClient(omg.Config\x7b\n\t\tApiURL:     os.Getenv(\"OPENFGA_API_URL\"),\n\t\tStoreID:    os.Getenv(\"OPENFGA_STORE_ID\"),\n\t\tAuthMethod: getAuthMethod(),\n\t\tAPIToken:   os.Getenv(\"OPENFGA_API_TOKEN\"),\n\t\x7d)\n\tif err != nil \x7b\n\t\tfmt.Fprintf(os.Stderr, \"Failed to create client: %v\\n\", err)\n\t\tos.Exit(1)\n\t\x7d\n\n\tctx := context.Background()\n\n\t// Check if we should run Up or Down\n\tif len(os.Args) > 1 && os.Args[1] == \"down\" \x7b\n\t\tif err := down(ctx, client); err != nil \x7b\n\t\t\tfmt.Fprintf(os.Stderr, \"Migration down failed: %v\\n\", err)\n\t\t\tos.Exit(1)\n\t\t\x7d\n\t\x7d else \x7b\n\t\tif err := up(ctx, client); err != nil \x7b\n\t\t\tfmt.Fprintf(os.Stderr, \"Migration up failed: %v\\n\", err)\n\t\t\tos.Exit(1)\n\t\t\x7d\n\t\x7d\n\x7d\n\nfunc getAuthMethod() string \x7b\n\tif token := os.Getenv(\"OPENFGA_API_TOKEN\"); token != \"\" \x7b\n\t\treturn \"token\"\n\t\x7d\n\treturn \"none\"\n\x7d\n\n"

/-- The `"type.relation"` key used by `sortRelationChanges`. -/
def relKey (c : ModelChange) : Str := c.typeName ++ strL "." ++ c.relationName

/-- Worker for `goFieldsFunc` (`acc` holds the current field, reversed). -/
def goFieldsFuncAux (f : Char → Bool) : Str → Str → List Str
  | [], acc => if acc.isEmpty then [] else [acc.reverse]
  | c :: rest, acc =>
    if f c then
      (if acc.isEmpty then goFieldsFuncAux f rest []
       else acc.reverse :: goFieldsFuncAux f rest [])
    else goFieldsFuncAux f rest (c :: acc)

/-- Go `strings.FieldsFunc(s, f)`: maximal runs of characters not
satisfying `f` (no empty fields). -/
def goFieldsFunc (s : Str) (f : Char → Bool) : List Str := goFieldsFuncAux f s []

/-- Go `extractRelationDependenciesFromDef(relDef, currentRel)`. -/
def extractRelationDependenciesFromDef (relDef currentRel : Str) : List Str :=
  if goContains relDef (strL " from ") && ((goSplit relDef (strL " from ")).length == 2) then
    [goTrimSpace ((goSplit relDef (strL " from ")).getD 0 [])]
  else if goContains relDef (strL "->") && ((goSplit relDef (strL "->")).length == 2) then
    [goTrimSpace ((goSplit relDef (strL "->")).getD 1 [])]
  else
    let words := goFieldsFunc relDef
      (fun r => r == ' ' || r == ',' || r == ':' || r == '#')
    words.filter (fun word =>
      !(word == strL "or" || word == strL "and" || word == strL "but" ||
        word == strL "not" || word == strL "from" || word == strL "define" ||
        word == currentRel || goStartsWith word (strL "[") ||
        goEndsWith word (strL "]") || goContains word (strL "[") ||
        goContains word (strL "]")))

/-- The per-relation dependency computation of `sortRelationChanges`
(tuple-to-userset forms resolve to one cross-type or same-type key; other
definitions resolve each extracted word against the change set). -/
def computeFullDeps (relations : List (Str × Str)) (key relDef : Str) : List Str :=
  let parts := goSplit key (strL ".")
  let typeName := parts.getD 0 []
  let relName := parts.getD 1 []
  let depNames := extractRelationDependenciesFromDef relDef relName
  if goContains relDef (strL " from ") then
    let p := goSplit relDef (strL " from ")
    if p.length = 2 then
      let computedUserset := goTrimSpace (p.getD 0 [])
      let tuplesetType := goTrimSpace (p.getD 1 [])
      let depKey := tuplesetType ++ strL "." ++ computedUserset
      if (alookup depKey relations).isSome then [depKey] else []
    else []
  else if goContains relDef (strL "->") then
    let p := goSplit relDef (strL "->")
    if p.length = 2 then
      let computedUserset := goTrimSpace (p.getD 1 [])
      let depKey := typeName ++ strL "." ++ computedUserset
      if (alookup depKey relations).isSome then [depKey] else []
    else []
  else
    depNames.foldl (fun acc depName =>
      let sameTypeKey := typeName ++ strL "." ++ depName
      if (alookup sameTypeKey relations).isSome then acc ++ [sameTypeKey]
      else acc ++ (relations.filter
        (fun kv => goEndsWith kv.1 (strL "." ++ depName))).map (fun kv => kv.1)) []

/-- The inner edge loop of `topologicalSort`: for every occurrence of
`current` among the dependencies of `dependent`, decrement its in-degree,
enqueueing it when the degree reaches zero. -/
def decDependent (st : List (Str × ℤ) × List Str) (dependent : Str)
    (dependencies : List Str) (current : Str) : List (Str × ℤ) × List Str :=
  dependencies.foldl (fun st dep =>
    if dep = current then
      let v := (alookup dependent st.1).getD 0 - 1
      let inDeg2 := aupsert dependent v st.1
      if v = 0 then (inDeg2, st.2 ++ [dependent]) else (inDeg2, st.2)
    else st) st

/-- The Kahn queue loop of `topologicalSort`, with fuel: each iteration
pops one queued node and every node is enqueued at most once, so the
caller's fuel `allNodes.length + 1` can never run out. -/
def topoLoop (deps : List (Str × List Str)) : ℕ → List Str → List (Str × ℤ) → List Str →
    List Str
  | 0, _, _, sorted => sorted
  | _ + 1, [], _, sorted => sorted
  | fuel + 1, current :: queueRest, inDeg, sorted =>
    let st := deps.foldl (fun st kv => decDependent st kv.1 kv.2 current) (inDeg, queueRest)
    topoLoop deps fuel st.2 st.1 (sorted ++ [current])

/-- Go `topologicalSort(deps, allNodes)`: Kahn-style sort; any residue
left by a cycle is appended in node-iteration order. -/
def topologicalSort (deps : List (Str × List Str)) (allNodes : List (Str × Str)) : List Str :=
  let inDegree0 := allNodes.foldl (fun m kv => aupsert kv.1 (0 : ℤ) m) []
  let inDegree := deps.foldl (fun m kv => aupsert kv.1 (kv.2.length : ℤ) m) inDegree0
  let queue := (inDegree.filter (fun kv => kv.2 == 0)).map (fun kv => kv.1)
  let sorted := topoLoop deps (allNodes.length + 1) queue inDegree []
  if sorted.length < allNodes.length then
    sorted ++ (allNodes.map (fun kv => kv.1)).filter (fun node => !(sorted.contains node))
  else sorted

/-- Go `sortRelationChanges(changes)`: dependency-topological sort of
`AddRelation` changes. -/
def sortRelationChanges (changes : List ModelChange) : List ModelChange :=
  let relations := changes.foldl (fun m c => aupsert (relKey c) c.newValue m) []
  let changeMap := changes.foldl (fun m c => aupsert (relKey c) c m) []
  let deps := relations.map (fun kv => (kv.1, computeFullDeps relations kv.1 kv.2))
  let sorted := topologicalSort deps relations
  sorted.foldl (fun result key =>
    match alookup key changeMap with
    | some change => result ++ [change]
    | Option.none => result) []

/-- Go `orderChangesForUp(changes)`: concatenate the changes by kind in
the fixed forward order, with the `AddRelation` block dependency-sorted. -/
def orderChangesForUp (changes : List ModelChange) : List ModelChange :=
  let order := [ChangeType.addType, ChangeType.addRelation, ChangeType.updateRelation,
    ChangeType.renameRelation, ChangeType.renameType, ChangeType.removeRelation,
    ChangeType.removeType]
  order.foldl (fun ordered changeType =>
    if changeType == ChangeType.addRelation then
      ordered ++ sortRelationChanges (changes.filter (fun c => c.type == ChangeType.addRelation))
    else
      ordered ++ changes.filter (fun c => c.type == changeType)) []

/-- The per-change dispatch of `generateUpMigration`. -/
def genChangeUp (change : ModelChange) : Str :=
  match change.type with
  | ChangeType.addType => generateAddType change
  | ChangeType.addRelation => generateAddRelation change
  | ChangeType.updateRelation => generateUpdateRelation change
  | ChangeType.renameRelation => generateRenameRelation change
  | ChangeType.removeRelation => generateRemoveRelation change
  | ChangeType.renameType => generateRenameType change
  | ChangeType.removeType => generateRemoveType change

/-- Go `generateUpMigration(changes)`. -/
def generateUpMigration (changes : List ModelChange) : Str :=
  (orderChangesForUp changes).foldl (fun acc c => acc ++ genChangeUp c) []

/-- Go `orderChangesForDown(changes)`: the reversed forward order. -/
def orderChangesForDown (changes : List ModelChange) : List ModelChange :=
  (orderChangesForUp changes).reverse

/-- The per-change dispatch of `generateDownMigration` (each kind mapped
to its inverse). -/
def genChangeDown (change : ModelChange) : Str :=
  match change.type with
  | ChangeType.addType =>
    generateRemoveType { type := ChangeType.removeType, typeName := change.typeName }
  | ChangeType.removeType =>
    strL "\t// NOTE: Cannot automatically restore removed type\n" ++
      strL "\t// You need to manually add type \x27" ++ change.typeName ++
      strL "\x27 back\n\n"
  | ChangeType.addRelation => generateRemoveRelation change
  | ChangeType.removeRelation =>
    strL "\t// NOTE: Cannot automatically restore removed relation\n" ++
      strL "\t// You need to manually add relation \x27" ++ change.typeName ++ strL "." ++
      change.relationName ++ strL "\x27 back\n\n"
  | ChangeType.updateRelation =>
    generateUpdateRelation
      { type := ChangeType.updateRelation
        typeName := change.typeName
        relationName := change.relationName
        newValue := change.oldValue }
  | ChangeType.renameRelation =>
    generateRenameRelation
      { type := ChangeType.renameRelation
        typeName := change.typeName
        relationName := change.newValue
        oldValue := change.newValue
        newValue := change.oldValue }
  | ChangeType.renameType =>
    generateRenameType
      { type := ChangeType.renameType
        typeName := change.newValue
        oldValue := change.newValue
        newValue := change.oldValue }

/-- Go `generateDownMigration(changes)`. -/
def generateDownMigration (changes : List ModelChange) : Str :=
  (orderChangesForDown changes).foldl (fun acc c => acc ++ genChangeDown c) []

/-- Go `generateMigrationCode(version, name, changes)`. -/
def generateMigrationCode (version name : Str) (changes : List ModelChange) : Str :=
  migrationHeader version name ++
    strL "func up(ctx context.Context, client *omg.Client) error \x7b\n" ++
    strL "\t// Auto-generated migration\n" ++
    strL "\t// Changes detected:\n" ++
    changes.foldl (fun acc c => acc ++ strL "\t// - " ++ c.details ++ strL "\n") [] ++
    strL "\n" ++
    generateUpMigration changes ++
    strL "\n\treturn nil\n" ++
    strL "\x7d\n\n" ++
    strL "func down(ctx context.Context, client *omg.Client) error \x7b\n" ++
    strL "\t// Rollback operations\n\n" ++
    generateDownMigration changes ++
    strL "\n\treturn nil\n" ++
    strL "\x7d\n"

/-- A file write performed by `GenerateMigrationFromChanges`. -/
structure FileWrite where
  path : Str
  content : Str
deriving Inhabited, Repr

/-- Go `GenerateMigrationFromChanges(changes, name, migrationsDir)`.
The impure timestamp (`time.Now().Format(...)`) is a parameter, and the
directory creation plus file write (which in Go happen only after the
empty-change check) are returned as an explicit write list: the error
branch performs no write. -/
def GenerateMigrationFromChanges (changes : List ModelChange) (name migrationsDir
    timestamp : Str) : Except Str (Str × List FileWrite) :=
  if changes.length = 0 then Except.error (strL "no changes detected")
  else
    let filename := migrationsDir ++ strL "/" ++ timestamp ++ strL "_" ++
      sanitizeName name ++ strL ".go"
    let code := generateMigrationCode timestamp name changes
    Except.ok (filename, [FileWrite.mk filename code])

/-! ## Specification-side definitions (for refinement comparisons) and
concrete inputs used by the theorems below -/

/-- The confidence tier rule exactly as the specification words it
(compared with the source-derived `determineRenameConfidence` below). -/
def confidenceSpecRule (ns rs : ℚ) : ConfidenceLevel :=
  if ns ≥ 0.70 ∨ (ns ≥ 0.40 ∧ rs ≥ 0.70) then ConfidenceLevel.high
  else if ns ≥ 0.30 ∨ rs ≥ 0.70 then ConfidenceLevel.medium
  else if ns ≥ 0.20 ∨ rs ≥ 0.50 then ConfidenceLevel.low
  else ConfidenceLevel.none

/-- The name-similarity formula exactly as the claim words it: identity,
substring and Levenshtein branches applied to the two names as given
(compared with the source-derived `calculateSimilarity` below). -/
def nameSimilaritySpec (name1 name2 : Str) : ℚ :=
  if name1 = name2 then 1
  else if goContains name1 name2 || goContains name2 name1 then
    ((min name1.length name2.length : ℕ) : ℚ) / ((max name1.length name2.length : ℕ) : ℚ)
  else
    1 - ((levenshteinDistance name1 name2 : ℕ) : ℚ) /
      ((max name1.length name2.length : ℕ) : ℚ)

/-- `occursBeforeB a b s`: both `a` and `b` occur in `s` and the first
occurrence of `a` starts strictly before the first occurrence of `b`. -/
def occursBeforeB (a b s : Str) : Bool :=
  match goIndexOf s a, goIndexOf s b with
  | some i, some j => decide (i < j)
  | _, _ => false

/-- A removed type `team` (the failing input of the tier-selection bug). -/
def c1Removed : ModelChange := { type := ChangeType.removeType, typeName := strL "team" }

/-- An added type `teams`: name similarity `4/5`, a High-tier candidate. -/
def c1AddedHigh : ModelChange := { type := ChangeType.addType, typeName := strL "teams" }

/-- An added type `txxm`: name similarity `1/2`, a Medium-tier candidate. -/
def c1AddedMedium : ModelChange := { type := ChangeType.addType, typeName := strL "txxm" }

/-- Old model state for the tier-selection scenario (one type `team`,
no relations, so relation similarity is `0` everywhere). -/
def c1OldState : ModelState := ModelState.mk [(strL "team", TypeState.mk (strL "team") [])]

/-- New model state for the tier-selection scenario. -/
def c1NewState : ModelState :=
  ModelState.mk [(strL "teams", TypeState.mk (strL "teams") []),
    (strL "txxm", TypeState.mk (strL "txxm") [])]

/-- A concrete `RemoveRelation` change (for the generator theorems). -/
def removeViewer : ModelChange :=
  { type := ChangeType.removeRelation, typeName := strL "document",
    relationName := strL "viewer" }

/-- Whether a change is one of the two rename kinds (used by the
conservation statements about `DetectPotentialRenames`). -/
def isRenameChange (c : ModelChange) : Bool :=
  c.type == ChangeType.renameType || c.type == ChangeType.renameRelation

/-- The common output segment shape of the two matching passes of
`DetectPotentialRenames`: emitted renames, then unmatched removals, then
unmatched additions. -/
def segOf (score : ModelChange → ModelChange → (ConfidenceLevel × ℚ × ℚ))
    (mkRen : ModelChange → ModelChange → BestT → ModelChange)
    (addedL removals : List ModelChange) : List ModelChange :=
  let res := matchLoop score mkRen addedL removals (List.replicate addedL.length false)
  res.1 ++ unmatchedOf removals res.2.1 ++ unmatchedOf addedL res.2.2

/-- Total number of added-relation changes stored across a grouping. -/
def sumAdded (gs : List (Str × (List ModelChange × List ModelChange))) : ℕ :=
  (gs.map (fun g => g.2.1.length)).sum

/-- Total number of removed-relation changes stored across a grouping. -/
def sumRemoved (gs : List (Str × (List ModelChange × List ModelChange))) : ℕ :=
  (gs.map (fun g => g.2.2.length)).sum

/-- The elements of `l` whose flag is `true`: the complement of
`unmatchedOf`, i.e. the changes consumed by the matching loop. -/
def matchedOf (l : List ModelChange) (flags : List Bool) : List ModelChange :=
  (l.zip flags).filterMap (fun p => if p.2 then some p.1 else Option.none)

/-! ## Bridge lemmas between the kernel-computable rational helpers and
the `ℚ` field operations -/

theorem qSub_eq (a b : ℚ) : qSub a b = a - b := by
  have ha : ((a.den : ℚ)) ≠ 0 := by positivity
  have hb : ((b.den : ℚ)) ≠ 0 := by positivity
  rw [qSub, Rat.mkRat_eq_div]
  push_cast
  rw [show a - b = a.num / a.den - b.num / b.den by
    rw [Rat.num_div_den, Rat.num_div_den]]
  field_simp
  ring

theorem qMul_eq (a b : ℚ) : qMul a b = a * b := by
  have ha : ((a.den : ℚ)) ≠ 0 := by positivity
  have hb : ((b.den : ℚ)) ≠ 0 := by positivity
  rw [qMul, Rat.mkRat_eq_div]
  push_cast
  rw [show a * b = a.num / a.den * (b.num / b.den) by
    rw [Rat.num_div_den, Rat.num_div_den]]
  field_simp

theorem mkRat_nat_eq (a b : ℕ) : mkRat a b = (a : ℚ) / b := by
  rw [Rat.mkRat_eq_div]; norm_num

theorem mkRat_one_one : mkRat 1 1 = (1 : ℚ) := by
  rw [Rat.mkRat_eq_div]; norm_num

theorem ite_lt_eq_min (a b : ℕ) : (if b < a then b else a) = min a b := by
  rw [Nat.min_def]; split_ifs <;> omega

theorem ite_gt_eq_max (a b : ℕ) : (if b > a then b else a) = max a b := by
  rw [Nat.max_def]; split_ifs <;> omega

theorem mkRat_7_10 : mkRat 7 10 = (0.70 : ℚ) := by rw [Rat.mkRat_eq_div]; norm_num

theorem mkRat_4_10 : mkRat 4 10 = (0.40 : ℚ) := by rw [Rat.mkRat_eq_div]; norm_num

theorem mkRat_3_10 : mkRat 3 10 = (0.30 : ℚ) := by rw [Rat.mkRat_eq_div]; norm_num

theorem mkRat_2_10 : mkRat 2 10 = (0.20 : ℚ) := by rw [Rat.mkRat_eq_div]; norm_num

theorem mkRat_5_10 : mkRat 5 10 = (0.50 : ℚ) := by rw [Rat.mkRat_eq_div]; norm_num

/-- C2: for all `ns` and `rs` in `[0,1]`, the confidence tier computed by
`determineRenameConfidence` is exactly the tier given by the
specification's threshold rule: High if `ns ≥ 0.70` or
(`ns ≥ 0.40` and `rs ≥ 0.70`); else Medium if `ns ≥ 0.30` or `rs ≥ 0.70`;
else Low if `ns ≥ 0.20` or `rs ≥ 0.50`; else None. -/
theorem determineRenameConfidence_matches_spec (ns rs : ℚ)
    (hns0 : 0 ≤ ns) (hns1 : ns ≤ 1) (hrs0 : 0 ≤ rs) (hrs1 : rs ≤ 1) :
    determineRenameConfidence ns rs = confidenceSpecRule ns rs := by
  unfold determineRenameConfidence confidenceSpecRule
  rw [mkRat_7_10, mkRat_4_10, mkRat_3_10, mkRat_2_10, mkRat_5_10]

/-- Witness for C2 at `ns = 4/5`, `rs = 0`. -/
theorem determineRenameConfidence_matches_spec_witness :
    determineRenameConfidence (mkRat 4 5) (mkRat 0 1) =
      confidenceSpecRule (mkRat 4 5) (mkRat 0 1) :=
  determineRenameConfidence_matches_spec (mkRat 4 5) (mkRat 0 1)
    (by rw [Rat.mkRat_eq_div]; norm_num) (by rw [Rat.mkRat_eq_div]; norm_num)
    (by rw [Rat.mkRat_eq_div]; norm_num) (by rw [Rat.mkRat_eq_div]; norm_num)

theorem charOfNat_toNat_of_le (n : ℕ) (h2 : n ≤ 122) : (Char.ofNat n).toNat = n := by
  unfold Char.ofNat
  rw [dif_pos (Or.inl (by omega) : n.isValidChar)]
  rfl

theorem charToLower_idem (c : Char) : c.toLower.toLower = c.toLower := by
  by_cases h : c.toNat ≥ 65 ∧ c.toNat ≤ 90
  · have hv : (Char.ofNat (c.toNat + 32)).toNat = c.toNat + 32 :=
      charOfNat_toNat_of_le _ (by omega)
    simp only [Char.toLower, if_pos h, hv]
    rw [if_neg (by omega)]
  · simp only [Char.toLower, if_neg h]

theorem goToLower_idem (s : Str) : goToLower (goToLower s) = goToLower s := by
  simp [goToLower, Function.comp, charToLower_idem]

theorem calcSim_eq_lower_spec (n1 n2 : Str) :
    calculateSimilarity n1 n2 = nameSimilaritySpec (goToLower n1) (goToLower n2) := by
  simp only [calculateSimilarity, nameSimilaritySpec]
  by_cases h1 : goToLower n1 = goToLower n2
  · rw [if_pos h1, if_pos h1, mkRat_one_one]
  · rw [if_neg h1, if_neg h1]
    by_cases h2 : (goContains (goToLower n1) (goToLower n2) ||
        goContains (goToLower n2) (goToLower n1)) = true
    · rw [if_pos h2, if_pos h2, mkRat_nat_eq, ite_lt_eq_min, ite_gt_eq_max]
    · rw [if_neg h2, if_neg h2, qSub_eq, mkRat_one_one, mkRat_nat_eq, ite_gt_eq_max]

/-- C6 (amended): `calculateSimilarity` computes exactly the claimed
three-branch formula, but applied to the lowercased names: 1 on equal
lowercased names, `shorter/longer` when one lowercased name contains the
other, else `1 - editDistance/maxLen` of the lowercased names. -/
theorem calculateSimilarity_eq_spec (n1 n2 : Str) :
    calculateSimilarity n1 n2 = nameSimilaritySpec (goToLower n1) (goToLower n2) :=
  calcSim_eq_lower_spec n1 n2

/-- C6 (counterexample): on the pair `("Team", "team")` the code returns
`1` (it lowercases first), while the claimed raw-name formula falls into
the Levenshtein branch and yields `3/4`; so the claim, which quantifies
over all pairs of names, fails on names differing only in letter case. -/
theorem calculateSimilarity_ne_spec_on_case :
    calculateSimilarity (strL "Team") (strL "team") = 1 ∧
    nameSimilaritySpec (strL "Team") (strL "team") = 3 / 4 ∧
    calculateSimilarity (strL "Team") (strL "team") ≠
      nameSimilaritySpec (strL "Team") (strL "team") := by
  have hcode : calculateSimilarity (strL "Team") (strL "team") = 1 := by
    rw [show calculateSimilarity (strL "Team") (strL "team") = mkRat 1 1 from rfl,
      mkRat_one_one]
  have hspec : nameSimilaritySpec (strL "Team") (strL "team") = 3 / 4 := by
    rw [nameSimilaritySpec]
    rw [if_neg (by decide), if_neg (by decide)]
    rw [show levenshteinDistance (strL "Team") (strL "team") = 1 from rfl]
    rw [show max (strL "Team").length (strL "team").length = 4 from rfl]
    norm_num
  exact ⟨hcode, hspec, by rw [hcode, hspec]; norm_num⟩

theorem calcSim_lower_eq (X Y : Str) (h : goToLower X = goToLower Y) :
    calculateSimilarity X Y = mkRat 1 1 := by
  simp only [calculateSimilarity]
  rw [if_pos h]

theorem detConf_one (rs : ℚ) :
    determineRenameConfidence 1 rs = ConfidenceLevel.high := by
  unfold determineRenameConfidence
  rw [if_pos (Or.inl (by rw [mkRat_7_10]; norm_num))]

theorem c10_detection_aux (X Y : Str) (oS nS : Option ModelState)
    (h : goToLower X = goToLower Y) :
    (DetectPotentialRenames
      [{ type := ChangeType.removeType, typeName := X },
       { type := ChangeType.addType, typeName := Y }] oS nS).map
        (fun c => (c.type, c.oldValue, c.newValue, c.confidence)) =
      [(ChangeType.renameType, X, Y, ConfidenceLevel.high)] := by
  simp +decide [DetectPotentialRenames, matchLoop, bestScan, scoreType, mkRenType,
    unmatchedOf, relationsByType, processRelGroup, isGrouped,
    List.filter_cons, List.filter_nil,
    calcSim_lower_eq X Y h, detConf_one]

/-- C10: name-similarity scoring is case-insensitive: the score is
invariant under lowercasing the names, two names equal after lowercasing
score `1`, and a type whose removal and addition differ only in letter
case is matched as a single High-confidence rename. -/
theorem similarity_case_insensitive :
    (∀ n1 n2 : Str, calculateSimilarity n1 n2 =
      calculateSimilarity (goToLower n1) (goToLower n2)) ∧
    (∀ n1 n2 : Str, goToLower n1 = goToLower n2 → calculateSimilarity n1 n2 = 1) ∧
    (∀ (X Y : Str) (oS nS : Option ModelState), goToLower X = goToLower Y →
      (DetectPotentialRenames
        [{ type := ChangeType.removeType, typeName := X },
         { type := ChangeType.addType, typeName := Y }] oS nS).map
          (fun c => (c.type, c.oldValue, c.newValue, c.confidence)) =
        [(ChangeType.renameType, X, Y, ConfidenceLevel.high)]) := by
  refine ⟨fun n1 n2 => ?_, fun n1 n2 h => ?_, c10_detection_aux⟩
  · rw [calcSim_eq_lower_spec, calcSim_eq_lower_spec,
      goToLower_idem, goToLower_idem]
  · rw [calcSim_lower_eq n1 n2 h, mkRat_one_one]

/-- Witness for C10 at the pair `("Team", "team")`. -/
theorem similarity_case_insensitive_witness :
    calculateSimilarity (strL "Team") (strL "team") = 1 ∧
    (DetectPotentialRenames
      [{ type := ChangeType.removeType, typeName := strL "Team" },
       { type := ChangeType.addType, typeName := strL "team" }]
        Option.none Option.none).map
        (fun c => (c.type, c.oldValue, c.newValue, c.confidence)) =
      [(ChangeType.renameType, strL "Team", strL "team", ConfidenceLevel.high)] :=
  ⟨similarity_case_insensitive.2.1 _ _ (by decide),
   similarity_case_insensitive.2.2 _ _ Option.none Option.none (by decide)⟩

/-- C9: on an empty change list the generator fails with the
`"no changes detected"` error before any file write (the error branch of
the embedding carries no write), and on every non-empty change list it
succeeds with exactly one migration-file write, so the error is never
raised. -/
theorem generateMigration_empty_iff_error (changes : List ModelChange)
    (name dir ts : Str) :
    (changes = [] →
      GenerateMigrationFromChanges changes name dir ts =
        Except.error (strL "no changes detected")) ∧
    (changes ≠ [] → ∃ fn code,
      GenerateMigrationFromChanges changes name dir ts =
        Except.ok (fn, [FileWrite.mk fn code])) := by
  constructor
  · intro h; subst h; rfl
  · intro h
    refine ⟨dir ++ strL "/" ++ ts ++ strL "_" ++ sanitizeName name ++ strL ".go",
      generateMigrationCode ts name changes, ?_⟩
    unfold GenerateMigrationFromChanges
    rw [if_neg (by simpa using h)]

/-- Witness for C9: the empty list errors; a one-change list succeeds. -/
theorem generateMigration_empty_iff_error_witness :
    GenerateMigrationFromChanges [] (strL "add stuff") (strL "migrations")
        (strL "20240101120000") = Except.error (strL "no changes detected") ∧
    ∃ fn code,
      GenerateMigrationFromChanges [removeViewer] (strL "add stuff") (strL "migrations")
          (strL "20240101120000") = Except.ok (fn, [FileWrite.mk fn code]) :=
  ⟨(generateMigration_empty_iff_error [] _ _ _).1 rfl,
   (generateMigration_empty_iff_error [removeViewer] _ _ _).2 (by simp)⟩

/-! ## Lemmas about the Go string primitives -/

theorem goStartsWith_append (p r : Str) : goStartsWith (p ++ r) p = true := by
  induction p with
  | nil => cases r <;> rfl
  | cons a as ih => simp [goStartsWith, ih]

theorem mem_of_goStartsWith (p s : Str) (c : Char) (h : goStartsWith s p = true)
    (hc : c ∈ p) : c ∈ s := by
  induction p generalizing s with
  | nil => simp at hc
  | cons b bs ih =>
    cases s with
    | nil => simp [goStartsWith] at h
    | cons a as =>
      simp only [goStartsWith, Bool.and_eq_true, beq_iff_eq] at h
      rcases List.mem_cons.mp hc with rfl | hmem
      · simp [h.1]
      · exact List.mem_cons_of_mem _ (ih as h.2 hmem)

theorem goContains_append_skip (sep X s : Str) (c0 : Char)
    (hsep : sep.head? = some c0) (hX : ∀ c ∈ X, c ≠ c0) :
    goContains (X ++ s) sep = goContains s sep := by
  obtain ⟨sep', rfl⟩ : ∃ sep', sep = c0 :: sep' := by
    cases sep with
    | nil => simp at hsep
    | cons a as => simp at hsep; exact ⟨as, by simp [hsep]⟩
  induction X with
  | nil => rfl
  | cons x xs ih =>
    have hx : x ≠ c0 := hX x (List.mem_cons_self x xs)
    rw [List.cons_append]
    rw [show goContains (x :: (xs ++ s)) (c0 :: sep') =
      (goStartsWith (x :: (xs ++ s)) (c0 :: sep') || goContains (xs ++ s) (c0 :: sep'))
      from rfl]
    rw [show goStartsWith (x :: (xs ++ s)) (c0 :: sep') =
      ((x == c0) && goStartsWith (xs ++ s) sep') from rfl]
    rw [ih (fun c hc => hX c (List.mem_cons_of_mem _ hc))]
    simp [hx]

theorem goContains_of_no_char (sep s : Str) (c0 : Char)
    (hsep : sep.head? = some c0) (hs : ∀ c ∈ s, c ≠ c0) :
    goContains s sep = false := by
  have h := goContains_append_skip sep s [] c0 hsep hs
  rw [List.append_nil] at h
  rw [h]
  cases sep with
  | nil => simp at hsep
  | cons a as => rfl

theorem goSplitAux_append_skip (sep X s acc : Str) (f : ℕ) (c0 : Char)
    (hsep : sep.head? = some c0) (hX : ∀ c ∈ X, c ≠ c0) :
    goSplitAux sep (X.length + f) (X ++ s) acc = goSplitAux sep f s (X.reverse ++ acc) := by
  obtain ⟨sep', rfl⟩ : ∃ sep', sep = c0 :: sep' := by
    cases sep with
    | nil => simp at hsep
    | cons a as => simp at hsep; exact ⟨as, by simp [hsep]⟩
  induction X generalizing acc with
  | nil => simp
  | cons x xs ih =>
    have hx : x ≠ c0 := hX x (List.mem_cons_self x xs)
    rw [show (x :: xs).length + f = (xs.length + f) + 1 by simp; omega]
    rw [List.cons_append, goSplitAux]
    rw [if_neg (by simp [goStartsWith, hx])]
    rw [ih _ (fun c hc => hX c (List.mem_cons_of_mem _ hc))]
    simp

theorem goSplitAux_cons_sep (sep s acc : Str) (f : ℕ) (hsep : sep ≠ []) :
    goSplitAux sep (f + 1) (sep ++ s) acc = acc.reverse :: goSplitAux sep f s [] := by
  cases sep with
  | nil => exact absurd rfl hsep
  | cons c cs =>
    rw [List.cons_append, goSplitAux]
    rw [if_pos (by simpa using goStartsWith_append (c :: cs) s)]
    congr 2
    simp [List.drop_left]

theorem goSplitAux_no_sep (sep s acc : Str) (f : ℕ) (c0 : Char)
    (hsep : sep.head? = some c0) (hs : ∀ c ∈ s, c ≠ c0) :
    goSplitAux sep (s.length + f) s acc = [acc.reverse ++ s] := by
  have h := goSplitAux_append_skip sep s [] acc f c0 hsep hs
  rw [List.append_nil] at h
  rw [h, goSplitAux]
  simp

theorem goSplit_sandwich (sep X Y : Str) (c0 : Char)
    (hsep : sep.head? = some c0) (hX : ∀ c ∈ X, c ≠ c0) (hY : ∀ c ∈ Y, c ≠ c0) :
    goSplit (X ++ sep ++ Y) sep = [X, Y] := by
  have hne : sep ≠ [] := by cases sep <;> simp_all
  have hslen : 1 ≤ sep.length := by cases sep <;> simp_all
  rw [goSplit, List.append_assoc]
  rw [show (X ++ (sep ++ Y)).length = X.length + (sep.length + Y.length) by simp]
  rw [goSplitAux_append_skip sep X (sep ++ Y) [] (sep.length + Y.length) c0 hsep hX,
    List.append_nil]
  rw [show sep.length + Y.length = (Y.length + (sep.length - 1)) + 1 by omega]
  rw [goSplitAux_cons_sep sep Y _ _ hne]
  rw [goSplitAux_no_sep sep Y [] (sep.length - 1) c0 hsep hY]
  simp

theorem goContains_sandwich (sep X Y : Str) (c0 : Char)
    (hsep : sep.head? = some c0) (hX : ∀ c ∈ X, c ≠ c0) :
    goContains (X ++ sep ++ Y) sep = true := by
  rw [List.append_assoc, goContains_append_skip sep X (sep ++ Y) c0 hsep hX]
  cases sep with
  | nil => simp at hsep
  | cons a as =>
    rw [List.cons_append]
    rw [show goContains (a :: (as ++ Y)) (a :: as) =
      (goStartsWith (a :: (as ++ Y)) (a :: as) || goContains (as ++ Y) (a :: as))
      from rfl]
    rw [show goStartsWith (a :: (as ++ Y)) (a :: as) = goStartsWith ((a :: as) ++ Y) (a :: as)
      from rfl]
    rw [goStartsWith_append]
    simp

theorem goTrimSpace_define_append (s : Str) (hns : ∃ c ∈ s, isGoSpace c = false) :
    ∃ s', goTrimSpace (strL "define " ++ s) = strL "define " ++ s' := by
  refine ⟨(s.reverse.dropWhile isGoSpace).reverse, ?_⟩
  have h2 : (s.reverse.dropWhile isGoSpace).isEmpty = false := by
    obtain ⟨c, hc, hcp⟩ := hns
    rw [Bool.eq_false_iff]
    intro hemp
    rw [List.isEmpty_iff, List.dropWhile_eq_nil_iff] at hemp
    exact absurd (hemp c (List.mem_reverse.mpr hc)) (by simp [hcp])
  rw [goTrimSpace]
  rw [show (strL "define " ++ s).dropWhile isGoSpace = strL "define " ++ s from rfl]
  rw [List.reverse_append, List.dropWhile_append, if_neg (by simp [h2])]
  rw [List.reverse_append, List.reverse_reverse]

theorem parseDSL_defineOutsideType (s : Str) (hnl : '\n' ∉ s)
    (hns : ∃ c ∈ s, isGoSpace c = false) :
    parseDSLToModel (strL "relations\ndefine " ++ s) =
      Except.error (strL "relation defined outside of type at line 2") := by
  obtain ⟨s', hs'⟩ := goTrimSpace_define_append s hns
  have hsplit : goSplit (strL "relations\ndefine " ++ s) (strL "\n") =
      [strL "relations", strL "define " ++ s] := by
    rw [show strL "relations\ndefine " ++ s =
      strL "relations" ++ strL "\n" ++ (strL "define " ++ s) from rfl]
    refine goSplit_sandwich (strL "\n") (strL "relations") (strL "define " ++ s) '\n' rfl
      (by decide) ?_
    intro c hc
    rcases List.mem_append.mp hc with h | h
    · exact (by decide : ∀ c ∈ strL "define ", c ≠ '\n') c h
    · exact fun hEq => hnl (hEq ▸ h)
  rw [parseDSLToModel, hsplit]
  rw [show parseDSLLines [strL "relations", strL "define " ++ s] 0
      (AuthorizationModel.mk (strL "1.1") []) Option.none false =
    parseDSLLines [strL "define " ++ s] 1
      (AuthorizationModel.mk (strL "1.1") []) Option.none true from rfl]
  rw [parseDSLLines]
  simp only [hs']
  have e1 : (strL "define " ++ s').isEmpty = false := rfl
  have e2 : goStartsWith (strL "define " ++ s') (strL "#") = false := rfl
  have e3 : goStartsWith (strL "define " ++ s') (strL "schema ") = false := rfl
  have e4 : ¬(strL "define " ++ s' = strL "model") := by
    intro h
    have h2 : ('d' : Char) = 'm' := congrArg (fun l => l.headD ' ') h
    exact absurd h2 (by decide)
  have e5 : goStartsWith (strL "define " ++ s') (strL "type ") = false := rfl
  have e6 : ¬(strL "define " ++ s' = strL "relations") := by
    intro h
    have h2 : ('d' : Char) = 'r' := congrArg (fun l => l.headD ' ') h
    exact absurd h2 (by decide)
  have e7 : goStartsWith (strL "define " ++ s') (strL "define ") = true :=
    goStartsWith_append (strL "define ") s'
  simp only [e1, e2, e3, e5, e7, if_neg e4, if_neg e6, Bool.or_false, Bool.false_or,
    Bool.and_true, Bool.true_and, if_false, Bool.false_eq_true]
  rw [if_pos trivial]
  congr 1

/-- C5 (counterexample): a document consisting of the single line
`relations`, with no type open, parses successfully to the empty model;
the claimed `RelationOutsideType` failure does not occur on the
`relations` line. -/
theorem parseDSL_bareRelations_ok :
    parseDSLToModel (strL "relations") =
      Except.ok (AuthorizationModel.mk (strL "1.1") []) := rfl

/-- Witness for the amended C5 at the document
`"relations\ndefine owner: [user]"`. -/
theorem parseDSL_defineOutsideType_witness :
    parseDSLToModel (strL "relations\ndefine " ++ strL "owner: [user]") =
      Except.error (strL "relation defined outside of type at line 2") :=
  parseDSL_defineOutsideType (strL "owner: [user]") (by decide) (by decide)

theorem identChar_spec (c : Char) (h : (c.isAlpha || c.isDigit || c == '_') = true) :
    c ≠ ' ' ∧ c ≠ '-' ∧ c ≠ '\n' ∧ isGoSpace c = false := by
  refine ⟨?_, ?_, ?_, ?_⟩
  · rintro rfl; exact absurd h (by decide)
  · rintro rfl; exact absurd h (by decide)
  · rintro rfl; exact absurd h (by decide)
  · rw [Bool.eq_false_iff]
    intro hsp
    simp only [isGoSpace, Bool.or_eq_true, beq_iff_eq] at hsp
    rcases hsp with ((((rfl | rfl) | rfl) | rfl) | rfl) | rfl <;> exact absurd h (by decide)

theorem bareIdent_all_identChar (s : Str) (h : isBareIdent s = true) :
    ∀ c ∈ s, (c.isAlpha || c.isDigit || c == '_') = true := by
  cases s with
  | nil => simp [isBareIdent] at h
  | cons a as =>
    simp only [isBareIdent, Bool.and_eq_true, List.all_eq_true] at h
    intro c hc
    rcases List.mem_cons.mp hc with rfl | hm
    · rcases Bool.or_eq_true _ _ |>.mp h.1 with h' | h' <;> simp [h']
    · exact h.2 c hm

theorem bareIdent_head (s : Str) (h : isBareIdent s = true) :
    ∃ x xs, s = x :: xs ∧ x ≠ '[' := by
  cases s with
  | nil => simp [isBareIdent] at h
  | cons a as =>
    refine ⟨a, as, rfl, ?_⟩
    have := bareIdent_all_identChar _ h a (List.mem_cons_self a as)
    rintro rfl; exact absurd this (by decide)

theorem dropWhile_of_all_false {p : Char → Bool} (s : Str)
    (hs : ∀ c ∈ s, p c = false) : s.dropWhile p = s := by
  cases s with
  | nil => rfl
  | cons a as =>
    rw [List.dropWhile_cons, if_neg (by simp [hs a (List.mem_cons_self a as)])]

theorem goTrimSpace_of_no_space (s : Str) (hs : ∀ c ∈ s, isGoSpace c = false) :
    goTrimSpace s = s := by
  rw [goTrimSpace, dropWhile_of_all_false s hs,
    dropWhile_of_all_false s.reverse (fun c hc => hs c (List.mem_reverse.mp hc)),
    List.reverse_reverse]

theorem goContains_from_op_false (X Y : Str) (c1 : Char) (op' : Str)
    (hc1 : c1 ≠ 'f') (hsp : ' ' ∈ c1 :: op')
    (hX : ∀ c ∈ X, c ≠ ' ') (hY : ∀ c ∈ Y, c ≠ ' ') :
    goContains (X ++ strL " from " ++ Y) (' ' :: c1 :: op') = false := by
  rw [List.append_assoc,
    goContains_append_skip (' ' :: c1 :: op') X (strL " from " ++ Y) ' ' rfl hX]
  rw [show strL " from " ++ Y = ' ' :: 'f' :: 'r' :: 'o' :: 'm' :: ' ' :: Y from rfl]
  rw [show goContains (' ' :: 'f' :: 'r' :: 'o' :: 'm' :: ' ' :: Y) (' ' :: c1 :: op') =
    (goStartsWith (' ' :: 'f' :: 'r' :: 'o' :: 'm' :: ' ' :: Y) (' ' :: c1 :: op') ||
      goContains ('f' :: 'r' :: 'o' :: 'm' :: ' ' :: Y) (' ' :: c1 :: op')) from rfl]
  have h1 : goStartsWith (' ' :: 'f' :: 'r' :: 'o' :: 'm' :: ' ' :: Y)
      (' ' :: c1 :: op') = false := by
    simp [goStartsWith, Ne.symm hc1]
  have h2 : goContains ('f' :: 'r' :: 'o' :: 'm' :: ' ' :: Y) (' ' :: c1 :: op') =
      goContains (' ' :: Y) (' ' :: c1 :: op') :=
    goContains_append_skip (' ' :: c1 :: op') ['f', 'r', 'o', 'm'] (' ' :: Y) ' ' rfl
      (by decide)
  rw [h1, h2]
  rw [show goContains (' ' :: Y) (' ' :: c1 :: op') =
    (goStartsWith (' ' :: Y) (' ' :: c1 :: op') || goContains Y (' ' :: c1 :: op'))
    from rfl]
  have h3 : goStartsWith (' ' :: Y) (' ' :: c1 :: op') = false := by
    rw [show goStartsWith (' ' :: Y) (' ' :: c1 :: op') =
      ((' ' == ' ') && goStartsWith Y (c1 :: op')) from rfl]
    simp only [beq_self_eq_true, Bool.true_and]
    rw [Bool.eq_false_iff]
    intro hsw
    exact hY ' ' (mem_of_goStartsWith _ Y ' ' hsw hsp) rfl
  rw [h3, goContains_of_no_char (' ' :: c1 :: op') Y ' ' rfl hY]
  rfl

theorem parse_from_ident (X Y : Str) (hX : isBareIdent X = true)
    (hY : isBareIdent Y = true) :
    parseRelationDefinition (X ++ strL " from " ++ Y) = Except.ok (Userset.ttu Y X) := by
  have hXall := bareIdent_all_identChar X hX
  have hYall := bareIdent_all_identChar Y hY
  have hXsp : ∀ c ∈ X, c ≠ ' ' := fun c hc => (identChar_spec c (hXall c hc)).1
  have hYsp : ∀ c ∈ Y, c ≠ ' ' := fun c hc => (identChar_spec c (hYall c hc)).1
  have hXgs : ∀ c ∈ X, isGoSpace c = false := fun c hc => (identChar_spec c (hXall c hc)).2.2.2
  have hYgs : ∀ c ∈ Y, isGoSpace c = false := fun c hc => (identChar_spec c (hYall c hc)).2.2.2
  have hor : goContains (X ++ strL " from " ++ Y) (strL " or ") = false :=
    goContains_from_op_false X Y 'o' (strL "r ") (by decide) (by decide) hXsp hYsp
  have hand : goContains (X ++ strL " from " ++ Y) (strL " and ") = false :=
    goContains_from_op_false X Y 'a' (strL "nd ") (by decide) (by decide) hXsp hYsp
  have hbut : goContains (X ++ strL " from " ++ Y) (strL " but not ") = false :=
    goContains_from_op_false X Y 'b' (strL "ut not ") (by decide) (by decide) hXsp hYsp
  have hfrom : goContains (X ++ strL " from " ++ Y) (strL " from ") = true :=
    goContains_sandwich (strL " from ") X Y ' ' rfl hXsp
  have hsplit : goSplit (X ++ strL " from " ++ Y) (strL " from ") = [X, Y] :=
    goSplit_sandwich (strL " from ") X Y ' ' rfl hXsp hYsp
  obtain ⟨x, xs, hXeq, hxbr⟩ := bareIdent_head X hX
  have hbr : goStartsWith (X ++ strL " from " ++ Y) (strL "[") = false := by
    subst hXeq
    rw [show (x :: xs) ++ strL " from " ++ Y = x :: (xs ++ strL " from " ++ Y) by simp]
    rw [show strL "[" = ['['] from rfl]
    simp [goStartsWith, hxbr]
  have ht1 : goTrimSpace X = X := goTrimSpace_of_no_space _ hXgs
  have ht2 : goTrimSpace Y = Y := goTrimSpace_of_no_space _ hYgs
  rw [parseRelationDefinition]
  rw [show (X ++ strL " from " ++ Y).length + 1 = (X ++ strL " from " ++ Y).length + 1
    from rfl]
  simp only [parseRelDefFuel, hor, hand, hbut, hbr, hfrom, hsplit,
    Bool.false_eq_true, if_false, Bool.false_and, List.length_cons,
    List.length_nil, List.getD, ht1, ht2]
  rw [if_pos trivial, if_neg (by norm_num)]
  simp [List.get?, ht1, ht2]

theorem parse_arrow_ident (X Y : Str) (hX : isBareIdent X = true)
    (hY : isBareIdent Y = true) :
    parseRelationDefinition (Y ++ strL "->" ++ X) = Except.ok (Userset.ttu Y X) := by
  have hXall := bareIdent_all_identChar X hX
  have hYall := bareIdent_all_identChar Y hY
  have hall : ∀ c ∈ Y ++ strL "->" ++ X, c ≠ ' ' := by
    intro c hc
    rcases List.mem_append.mp hc with hc1 | hc2
    · rcases List.mem_append.mp hc1 with hc3 | hc4
      · exact (identChar_spec c (hYall c hc3)).1
      · revert hc4
        exact fun hc4 => (by decide : ∀ a ∈ strL "->", a ≠ ' ') c hc4
    · exact (identChar_spec c (hXall c hc2)).1
  have hXd : ∀ c ∈ X, c ≠ '-' := fun c hc => (identChar_spec c (hXall c hc)).2.1
  have hYd : ∀ c ∈ Y, c ≠ '-' := fun c hc => (identChar_spec c (hYall c hc)).2.1
  have hXgs : ∀ c ∈ X, isGoSpace c = false := fun c hc => (identChar_spec c (hXall c hc)).2.2.2
  have hYgs : ∀ c ∈ Y, isGoSpace c = false := fun c hc => (identChar_spec c (hYall c hc)).2.2.2
  have hor : goContains (Y ++ strL "->" ++ X) (strL " or ") = false :=
    goContains_of_no_char (strL " or ") _ ' ' rfl hall
  have hand : goContains (Y ++ strL "->" ++ X) (strL " and ") = false :=
    goContains_of_no_char (strL " and ") _ ' ' rfl hall
  have hbut : goContains (Y ++ strL "->" ++ X) (strL " but not ") = false :=
    goContains_of_no_char (strL " but not ") _ ' ' rfl hall
  have hfrom : goContains (Y ++ strL "->" ++ X) (strL " from ") = false :=
    goContains_of_no_char (strL " from ") _ ' ' rfl hall
  have harrow : goContains (Y ++ strL "->" ++ X) (strL "->") = true :=
    goContains_sandwich (strL "->") Y X '-' rfl hYd
  have hsplit : goSplit (Y ++ strL "->" ++ X) (strL "->") = [Y, X] :=
    goSplit_sandwich (strL "->") Y X '-' rfl hYd hXd
  obtain ⟨y, ys, hYeq, hybr⟩ := bareIdent_head Y hY
  have hbr : goStartsWith (Y ++ strL "->" ++ X) (strL "[") = false := by
    subst hYeq
    rw [show (y :: ys) ++ strL "->" ++ X = y :: (ys ++ strL "->" ++ X) by simp]
    rw [show strL "[" = ['['] from rfl]
    simp [goStartsWith, hybr]
  have ht1 : goTrimSpace X = X := goTrimSpace_of_no_space _ hXgs
  have ht2 : goTrimSpace Y = Y := goTrimSpace_of_no_space _ hYgs
  rw [parseRelationDefinition]
  simp only [parseRelDefFuel, hor, hand, hbut, hbr, hfrom, harrow, hsplit,
    Bool.false_eq_true, if_false, Bool.false_and, List.length_cons,
    List.length_nil, List.getD]
  rw [if_pos trivial, if_neg (by norm_num)]
  simp [List.get?, ht1, ht2]

/-- C8: the expressions `"member from team"` and `"team->member"` parse to
the identical `TupleToUserset` structure with tupleset `team` and computed
relation `member`; and in general, for bare identifiers `X` and `Y`, the
strings `X from Y` and `Y->X` parse to the same `TupleToUserset Y X`. -/
theorem from_and_arrow_normalize :
    parseRelationDefinition (strL "member from team") =
        Except.ok (Userset.ttu (strL "team") (strL "member")) ∧
    parseRelationDefinition (strL "team->member") =
        Except.ok (Userset.ttu (strL "team") (strL "member")) ∧
    ∀ X Y : Str, isBareIdent X = true → isBareIdent Y = true →
      parseRelationDefinition (X ++ strL " from " ++ Y) = Except.ok (Userset.ttu Y X) ∧
      parseRelationDefinition (Y ++ strL "->" ++ X) = Except.ok (Userset.ttu Y X) :=
  ⟨rfl, rfl, fun X Y hX hY => ⟨parse_from_ident X Y hX hY, parse_arrow_ident X Y hX hY⟩⟩

/-- Witness for the general part of C8 at `X = "member"`, `Y = "team"`. -/
theorem from_and_arrow_normalize_witness :
    parseRelationDefinition (strL "member" ++ strL " from " ++ strL "team") =
        Except.ok (Userset.ttu (strL "team") (strL "member")) ∧
    parseRelationDefinition (strL "team" ++ strL "->" ++ strL "member") =
        Except.ok (Userset.ttu (strL "team") (strL "member")) :=
  ⟨(from_and_arrow_normalize.2.2 (strL "member") (strL "team") (by decide) (by decide)).1,
   (from_and_arrow_normalize.2.2 (strL "member") (strL "team") (by decide) (by decide)).2⟩

/-- C3 (amended): for every RemoveType change the emitted forward code
reads all matching tuples, batch-deletes them, and only then removes the
type from the schema; for every RemoveRelation change the emitted forward
code instead removes the relation from the schema first and then deletes
the tuples with a single `omg.DeleteRelation` call (no read step). -/
theorem removeType_cleanup_order (change : ModelChange) :
    (∃ p1 p2 p3 p4 : Str,
      generateRemoveType change =
        p1 ++ strL "omg.ReadAllTuples(" ++ p2 ++ strL "omg.DeleteTuplesBatch(" ++
          p3 ++ strL "omg.RemoveTypeFromModel(" ++ p4) ∧
    (∃ q1 q2 q3 : Str,
      generateRemoveRelation change =
        q1 ++ strL "omg.RemoveRelationFromType(" ++ q2 ++ strL "omg.DeleteRelation(" ++ q3) := by
  constructor
  · refine ⟨strL "\t// Remove type: " ++ change.typeName ++ strL "\n\t// Step 1: Delete all tuples of this type\n\t\x7b\n\t\ttuples, err := ",
      strL "ctx, client, \"" ++ change.typeName ++ strL "\", \"\")\n\t\tif err != nil \x7b\n\t\t\treturn fmt.Errorf(\"failed to read tuples: %w\", err)\n\t\t\x7d\n\n\t\tif len(tuples) > 0 \x7b\n\t\t\tfmt.Printf(\"Deleting %d tuples of type " ++ change.typeName ++
        strL "\\n\", len(tuples))\n\t\t\tif err := ",
      strL "ctx, client, tuples); err != nil \x7b\n\t\t\t\treturn fmt.Errorf(\"failed to delete tuples: %w\", err)\n\t\t\t\x7d\n\t\t\x7d\n\t\x7d\n\n\t// Step 2: Remove type from model\n\tif err := ",
      strL "ctx, client, \"" ++ change.typeName ++ strL "\"); err != nil \x7b\n\t\treturn fmt.Errorf(\"failed to remove type from model: %w\", err)\n\t\x7d\n\n", ?_⟩
    rw [generateRemoveType]
    rw [show strL "\n\t// Step 1: Delete all tuples of this type\n\t\x7b\n\t\ttuples, err := omg.ReadAllTuples(ctx, client, \"" =
      strL "\n\t// Step 1: Delete all tuples of this type\n\t\x7b\n\t\ttuples, err := " ++ strL "omg.ReadAllTuples(" ++ strL "ctx, client, \"" from rfl]
    rw [show strL "\\n\", len(tuples))\n\t\t\tif err := omg.DeleteTuplesBatch(ctx, client, tuples); err != nil \x7b\n\t\t\t\treturn fmt.Errorf(\"failed to delete tuples: %w\", err)\n\t\t\t\x7d\n\t\t\x7d\n\t\x7d\n\n\t// Step 2: Remove type from model\n\tif err := omg.RemoveTypeFromModel(ctx, client, \"" =
      strL "\\n\", len(tuples))\n\t\t\tif err := " ++ strL "omg.DeleteTuplesBatch(" ++ strL "ctx, client, tuples); err != nil \x7b\n\t\t\t\treturn fmt.Errorf(\"failed to delete tuples: %w\", err)\n\t\t\t\x7d\n\t\t\x7d\n\t\x7d\n\n\t// Step 2: Remove type from model\n\tif err := " ++
        strL "omg.RemoveTypeFromModel(" ++ strL "ctx, client, \"" from rfl]
    simp [List.append_assoc]
  · refine ⟨strL "\t// Remove relation: " ++ change.typeName ++ strL "." ++
        change.relationName ++ strL "\n\t// Step 1: Remove from model\n\tif err := ",
      strL "ctx, client, \"" ++ change.typeName ++ strL "\", \"" ++ change.relationName ++
        strL "\"); err != nil \x7b\n\t\treturn fmt.Errorf(\"failed to remove relation from model: %w\", err)\n\t\x7d\n\n\t// Step 2: Delete all tuples with this relation\n\tif err := ",
      strL "ctx, client, \"" ++ change.typeName ++ strL "\", \"" ++ change.relationName ++
        strL "\"); err != nil \x7b\n\t\treturn fmt.Errorf(\"failed to delete tuples: %w\", err)\n\t\x7d\n\n", ?_⟩
    rw [generateRemoveRelation]
    rw [show strL "\n\t// Step 1: Remove from model\n\tif err := omg.RemoveRelationFromType(ctx, client, \"" =
      strL "\n\t// Step 1: Remove from model\n\tif err := " ++ strL "omg.RemoveRelationFromType(" ++ strL "ctx, client, \"" from rfl]
    rw [show strL "\"); err != nil \x7b\n\t\treturn fmt.Errorf(\"failed to remove relation from model: %w\", err)\n\t\x7d\n\n\t// Step 2: Delete all tuples with this relation\n\tif err := omg.DeleteRelation(ctx, client, \"" =
      strL "\"); err != nil \x7b\n\t\treturn fmt.Errorf(\"failed to remove relation from model: %w\", err)\n\t\x7d\n\n\t// Step 2: Delete all tuples with this relation\n\tif err := " ++ strL "omg.DeleteRelation(" ++ strL "ctx, client, \"" from rfl]
    simp [List.append_assoc]

set_option maxRecDepth 10000 in
/-- C3 (counterexample): on the concrete RemoveRelation change
`document.viewer`, the emitted code contains the schema-removal call
`omg.RemoveRelationFromType` strictly before the tuple-deletion call
`omg.DeleteRelation` (so the tuple cleanup does not precede the schema
removal), and contains no `omg.ReadAllTuples` read step at all. -/
theorem removeRelation_order_counterexample :
    occursBeforeB (strL "omg.RemoveRelationFromType(") (strL "omg.DeleteRelation(")
      (generateRemoveRelation removeViewer) = true ∧
    occursBeforeB (strL "omg.DeleteRelation(") (strL "omg.RemoveRelationFromType(")
      (generateRemoveRelation removeViewer) = false ∧
    goContains (generateRemoveRelation removeViewer) (strL "omg.ReadAllTuples(") = false := by
  decide

theorem alookup_aupsert {α : Type} (k k2 : Str) (v2 : α) (m : List (Str × α)) :
    alookup k (aupsert k2 v2 m) = if k2 = k then some v2 else alookup k m := by
  induction m with
  | nil => rfl
  | cons p m' ih =>
    obtain ⟨k3, v3⟩ := p
    rw [aupsert]
    by_cases h32 : k3 = k2
    · subst h32
      rw [if_pos rfl]
      by_cases hk : k3 = k
      · subst hk; simp [alookup]
      · simp [alookup, hk]
    · rw [if_neg h32]
      by_cases h3k : k3 = k
      · subst h3k
        have : ¬(k2 = k3) := fun h => h32 h.symm
        simp [alookup, this]
      · simp [alookup, h3k, ih]

theorem alookup_foldl_changeMap (l : List ModelChange) (init : List (Str × ModelChange))
    (k : Str) (v : ModelChange)
    (h : alookup k (l.foldl (fun m c => aupsert (relKey c) c m) init) = some v) :
    v ∈ l ∨ alookup k init = some v := by
  induction l generalizing init with
  | nil => exact Or.inr h
  | cons c l' ih =>
    rcases ih (aupsert (relKey c) c init) h with hmem | hlook
    · exact Or.inl (List.mem_cons_of_mem _ hmem)
    · rw [alookup_aupsert] at hlook
      by_cases hk : relKey c = k
      · rw [if_pos hk] at hlook
        exact Or.inl (by simp [← Option.some.injEq _ _ |>.mp hlook])
      · rw [if_neg hk] at hlook
        exact Or.inr hlook

theorem mem_sortFold (sorted : List Str) (changeMap : List (Str × ModelChange))
    (acc : List ModelChange) (c : ModelChange)
    (h : c ∈ sorted.foldl (fun result key =>
      match alookup key changeMap with
      | some change => result ++ [change]
      | Option.none => result) acc) :
    c ∈ acc ∨ ∃ k, alookup k changeMap = some c := by
  induction sorted generalizing acc with
  | nil => exact Or.inl h
  | cons key rest ih =>
    rcases ih _ h with hacc | hex
    · simp only [] at hacc
      cases hlook : alookup key changeMap with
      | none => rw [hlook] at hacc; exact Or.inl hacc
      | some change =>
        rw [hlook] at hacc
        rcases List.mem_append.mp hacc with h1 | h2
        · exact Or.inl h1
        · exact Or.inr ⟨key, by rw [hlook, List.mem_singleton.mp h2]⟩
    · exact Or.inr hex

theorem mem_sortRelationChanges (l : List ModelChange) (c : ModelChange)
    (h : c ∈ sortRelationChanges l) : c ∈ l := by
  rw [sortRelationChanges] at h
  rcases mem_sortFold _ _ [] c h with h1 | ⟨k, hk⟩
  · simp at h1
  · rcases alookup_foldl_changeMap l [] k c hk with hm | hnone
    · exact hm
    · simp [alookup] at hnone

/-- C4: for every change list, the forward ordering places all AddType
changes first, then the dependency-topologically-sorted AddRelation
changes, then UpdateRelation, RenameRelation, RenameType, RemoveRelation,
and RemoveType last, regardless of the input order; every element of the
sorted AddRelation segment is an AddRelation change. -/
theorem orderChangesForUp_kind_order (changes : List ModelChange) :
    orderChangesForUp changes =
      changes.filter (fun c => c.type == ChangeType.addType) ++
      (sortRelationChanges (changes.filter (fun c => c.type == ChangeType.addRelation)) ++
      (changes.filter (fun c => c.type == ChangeType.updateRelation) ++
      (changes.filter (fun c => c.type == ChangeType.renameRelation) ++
      (changes.filter (fun c => c.type == ChangeType.renameType) ++
      (changes.filter (fun c => c.type == ChangeType.removeRelation) ++
      changes.filter (fun c => c.type == ChangeType.removeType)))))) ∧
    ∀ c ∈ sortRelationChanges (changes.filter (fun c => c.type == ChangeType.addRelation)),
      c.type = ChangeType.addRelation := by
  constructor
  · simp +decide [orderChangesForUp, List.foldl_cons, List.foldl_nil, List.append_assoc]
  · intro c hc
    have := mem_sortRelationChanges _ c hc
    have h2 := List.of_mem_filter this
    simpa using h2

/-- Witness for C4 at a one-element AddRelation change list. -/
theorem orderChangesForUp_kind_order_witness :
    ({ type := ChangeType.addRelation
       typeName := strL "doc"
       relationName := strL "owner"
       newValue := strL "[user]" } : ModelChange).type = ChangeType.addRelation :=
  (orderChangesForUp_kind_order
    [{ type := ChangeType.addRelation
       typeName := strL "doc"
       relationName := strL "owner"
       newValue := strL "[user]" }]).2 _ (by decide)

theorem bestScan_some (score : ModelChange → (ConfidenceLevel × ℚ × ℚ))
    (addedL : List ModelChange) (j0 : ℕ) (used : List Bool) (best : BestT) (j : ℕ)
    (h : (bestScan score addedL j0 used best).bestMatch = some j) :
    best.bestMatch = some j ∨
      (j0 ≤ j ∧ j < j0 + addedL.length ∧ used.getD j false = false) := by
  induction addedL generalizing j0 best with
  | nil => exact Or.inl h
  | cons a rest ih =>
    rw [bestScan] at h
    by_cases hu : used.getD j0 false = true
    · rw [if_pos hu] at h
      rcases ih (j0 + 1) best h with h1 | h2
      · exact Or.inl h1
      · exact Or.inr ⟨by omega, by simp only [List.length_cons]; omega, h2.2.2⟩
    · rw [if_neg hu] at h
      rcases ih (j0 + 1) _ h with h1 | h2
      · by_cases hc : (score a).1 ≠ ConfidenceLevel.none ∧
            (best.bestMatch = Option.none ∨ confGtGo (score a).1 best.bestConfidence = true ∨
              ((score a).1 = best.bestConfidence ∧ (score a).2.1 > best.bestNameSim))
        · rw [if_pos hc] at h1
          simp only [BestT.mk] at h1
          have hj : j = j0 := by
            have : some j0 = some j := h1
            exact (Option.some.injEq _ _ ▸ this).symm
          subst hj
          exact Or.inr ⟨le_refl _, by simp only [List.length_cons]; omega,
            by simpa using hu⟩
        · rw [if_neg hc] at h1
          exact Or.inl h1
      · exact Or.inr ⟨by omega, by simp only [List.length_cons]; omega, h2.2.2⟩

theorem countP_set_true (l : List Bool) (j : ℕ) (hj : j < l.length)
    (hval : l.getD j false = false) :
    (l.set j true).countP (fun b => b) = l.countP (fun b => b) + 1 := by
  induction l generalizing j with
  | nil => simp at hj
  | cons b t ih =>
    cases j with
    | zero =>
      have hb : b = false := hval
      subst hb
      simp [List.set, List.countP_cons]
    | succ j' =>
      have hj' : j' < t.length := by simpa using hj
      have hv' : t.getD j' false = false := hval
      simp only [List.set, List.countP_cons]
      rw [ih j' hj' hv']
      omega

theorem countP_replicate_false (n : ℕ) :
    (List.replicate n false).countP (fun b => b) = 0 := by
  induction n with
  | zero => rfl
  | succ n ih => simp [List.replicate, List.countP_cons, ih]

theorem unmatchedOf_length (l : List ModelChange) (flags : List Bool)
    (h : flags.length = l.length) :
    (unmatchedOf l flags).length = l.length - flags.countP (fun b => b) := by
  induction l generalizing flags with
  | nil => simp [unmatchedOf]
  | cons c t ih =>
    cases flags with
    | nil => simp at h
    | cons b bs =>
      have hlen : bs.length = t.length := by simpa using h
      have hle : bs.countP (fun x => x) ≤ bs.length := List.countP_le_length _
      cases b with
      | true =>
        rw [show unmatchedOf (c :: t) (true :: bs) = unmatchedOf t bs from rfl]
        rw [ih bs hlen]
        simp only [List.length_cons, List.countP_cons]
        norm_num
        omega
      | false =>
        rw [show unmatchedOf (c :: t) (false :: bs) = c :: unmatchedOf t bs from rfl]
        simp only [List.length_cons, ih bs hlen, List.countP_cons]
        norm_num
        omega

theorem unmatchedOf_mem (l : List ModelChange) (flags : List Bool) (c : ModelChange)
    (h : c ∈ unmatchedOf l flags) : c ∈ l := by
  induction l generalizing flags with
  | nil => simp [unmatchedOf] at h
  | cons a t ih =>
    cases flags with
    | nil => simp [unmatchedOf] at h
    | cons b bs =>
      cases b with
      | true =>
        rw [show unmatchedOf (a :: t) (true :: bs) = unmatchedOf t bs from rfl] at h
        exact List.mem_cons_of_mem _ (ih bs h)
      | false =>
        rw [show unmatchedOf (a :: t) (false :: bs) = a :: unmatchedOf t bs from rfl] at h
        rcases List.mem_cons.mp h with rfl | hm
        · exact List.mem_cons_self _ _
        · exact List.mem_cons_of_mem _ (ih bs hm)

theorem matchLoop_spec (score : ModelChange → ModelChange → (ConfidenceLevel × ℚ × ℚ))
    (mkRen : ModelChange → ModelChange → BestT → ModelChange)
    (addedL : List ModelChange) (removals : List ModelChange) (usedAdd : List Bool)
    (hlen : usedAdd.length = addedL.length) :
    (matchLoop score mkRen addedL removals usedAdd).2.1.length = removals.length ∧
    (matchLoop score mkRen addedL removals usedAdd).1.length =
      (matchLoop score mkRen addedL removals usedAdd).2.1.countP (fun b => b) ∧
    (matchLoop score mkRen addedL removals usedAdd).2.2.length = usedAdd.length ∧
    (matchLoop score mkRen addedL removals usedAdd).2.2.countP (fun b => b) =
      usedAdd.countP (fun b => b) +
        (matchLoop score mkRen addedL removals usedAdd).1.length ∧
    (∀ c ∈ (matchLoop score mkRen addedL removals usedAdd).1,
      ∃ r a b, c = mkRen r a b) := by
  induction removals generalizing usedAdd with
  | nil =>
    refine ⟨rfl, rfl, rfl, by simp [matchLoop], ?_⟩
    intro c hc
    simp [matchLoop] at hc
  | cons removed rest ih =>
    rw [matchLoop]
    cases hbest : (bestScan (score removed) addedL 0 usedAdd
        (BestT.mk Option.none ConfidenceLevel.none (mkRat 0 1) (mkRat 0 1))).bestMatch with
    | some j =>
      have hj := bestScan_some (score removed) addedL 0 usedAdd _ j hbest
      rcases hj with habs | ⟨_, hjlt, hjfalse⟩
      · simp at habs
      · have hjlen : j < usedAdd.length := by omega
        have hlen' : (usedAdd.set j true).length = addedL.length := by
          simpa using hlen
        obtain ⟨ih1, ih2, ih3, ih4, ih5⟩ := ih (usedAdd.set j true) hlen'
        refine ⟨by simpa using ih1, ?_, by simpa using ih3, ?_, ?_⟩
        · simp only [List.length_cons, List.countP_cons]
          rw [ih2]
          norm_num
        · rw [ih4, countP_set_true usedAdd j hjlen hjfalse]
          simp only [List.length_cons]
          omega
        · intro c hc
          rcases List.mem_cons.mp hc with rfl | hm
          · exact ⟨removed, addedL.getD j default, _, rfl⟩
          · exact ih5 c hm
    | none =>
      obtain ⟨ih1, ih2, ih3, ih4, ih5⟩ := ih usedAdd hlen
      refine ⟨by simpa using ih1, ?_, ih3, ?_, ih5⟩
      · simp only [List.countP_cons]
        rw [ih2]
        norm_num
      · simpa using ih4

theorem processRelGroup_eq_segOf (g : Str × (List ModelChange × List ModelChange)) :
    processRelGroup g = segOf scoreRel (mkRenRel g.1) g.2.1 g.2.2 := rfl

theorem segOf_conservation (score : ModelChange → ModelChange → (ConfidenceLevel × ℚ × ℚ))
    (mkRen : ModelChange → ModelChange → BestT → ModelChange)
    (addedL removals : List ModelChange)
    (hmk : ∀ r a b, isRenameChange (mkRen r a b) = true)
    (hadds : ∀ c ∈ addedL, isRenameChange c = false)
    (hrem : ∀ c ∈ removals, isRenameChange c = false) :
    (segOf score mkRen addedL removals).length +
      (segOf score mkRen addedL removals).countP isRenameChange =
      removals.length + addedL.length ∧
    ∀ c ∈ segOf score mkRen addedL removals,
      isRenameChange c = true ∨ c ∈ removals ∨ c ∈ addedL := by
  have hlen0 : (List.replicate addedL.length (false : Bool)).length = addedL.length := by simp
  obtain ⟨h1, h2, h3, h4, h5⟩ := matchLoop_spec score mkRen addedL removals
    (List.replicate addedL.length false) hlen0
  set res := matchLoop score mkRen addedL removals (List.replicate addedL.length false)
    with hres
  have h3' : res.2.2.length = addedL.length := by rw [h3, hlen0]
  have h4' : res.2.2.countP (fun b => b) = res.1.length := by
    rw [h4, countP_replicate_false]
    omega
  have hk1 : res.1.length ≤ removals.length := by
    rw [h2, ← h1]; exact List.countP_le_length _
  have hk2 : res.1.length ≤ addedL.length := by
    rw [← h4', ← h3']; exact List.countP_le_length _
  have hu1 : (unmatchedOf removals res.2.1).length = removals.length - res.1.length := by
    rw [unmatchedOf_length removals res.2.1 h1, ← h2]
  have hu2 : (unmatchedOf addedL res.2.2).length = addedL.length - res.1.length := by
    rw [unmatchedOf_length addedL res.2.2 h3', h4']
  have hc1 : res.1.countP isRenameChange = res.1.length := by
    apply List.countP_eq_length.mpr
    intro c hc
    obtain ⟨r, a, b, rfl⟩ := h5 c hc
    exact hmk r a b
  have hc2 : (unmatchedOf removals res.2.1).countP isRenameChange = 0 := by
    apply List.countP_eq_zero.mpr
    intro c hc
    rw [hrem c (unmatchedOf_mem removals res.2.1 c hc)]
    simp
  have hc3 : (unmatchedOf addedL res.2.2).countP isRenameChange = 0 := by
    apply List.countP_eq_zero.mpr
    intro c hc
    rw [hadds c (unmatchedOf_mem addedL res.2.2 c hc)]
    simp
  constructor
  · show (res.1 ++ unmatchedOf removals res.2.1 ++ unmatchedOf addedL res.2.2).length +
      (res.1 ++ unmatchedOf removals res.2.1 ++ unmatchedOf addedL res.2.2).countP
        isRenameChange = removals.length + addedL.length
    rw [List.length_append, List.length_append, List.countP_append, List.countP_append,
      hu1, hu2, hc1, hc2, hc3]
    omega
  · intro c hc
    have hc' : c ∈ res.1 ++ unmatchedOf removals res.2.1 ++ unmatchedOf addedL res.2.2 := hc
    rcases List.mem_append.mp hc' with hin | hin
    · rcases List.mem_append.mp hin with hin2 | hin2
      · obtain ⟨r, a, b, rfl⟩ := h5 c hin2
        exact Or.inl (hmk r a b)
      · exact Or.inr (Or.inl (unmatchedOf_mem removals res.2.1 c hin2))
    · exact Or.inr (Or.inr (unmatchedOf_mem addedL res.2.2 c hin))

theorem sumAdded_cons (g : Str × (List ModelChange × List ModelChange))
    (rest : List (Str × (List ModelChange × List ModelChange))) :
    sumAdded (g :: rest) = g.2.1.length + sumAdded rest := by
  simp [sumAdded]

theorem sumRemoved_cons (g : Str × (List ModelChange × List ModelChange))
    (rest : List (Str × (List ModelChange × List ModelChange))) :
    sumRemoved (g :: rest) = g.2.2.length + sumRemoved rest := by
  simp [sumRemoved]

theorem addGroupEntryA_sums (gs : List (Str × (List ModelChange × List ModelChange)))
    (c : ModelChange) :
    sumAdded (addGroupEntryA gs c) = sumAdded gs + 1 ∧
    sumRemoved (addGroupEntryA gs c) = sumRemoved gs := by
  induction gs with
  | nil => simp [addGroupEntryA, sumAdded, sumRemoved]
  | cons g rest ih =>
    obtain ⟨k, e⟩ := g
    simp only [addGroupEntryA]
    by_cases h : k = c.typeName
    · rw [if_pos h, sumAdded_cons, sumAdded_cons, sumRemoved_cons, sumRemoved_cons]
      simp
      omega
    · rw [if_neg h, sumAdded_cons, sumAdded_cons, sumRemoved_cons, sumRemoved_cons]
      omega

theorem addGroupEntryR_sums (gs : List (Str × (List ModelChange × List ModelChange)))
    (c : ModelChange) :
    sumRemoved (addGroupEntryR gs c) = sumRemoved gs + 1 ∧
    sumAdded (addGroupEntryR gs c) = sumAdded gs := by
  induction gs with
  | nil => simp [addGroupEntryR, sumAdded, sumRemoved]
  | cons g rest ih =>
    obtain ⟨k, e⟩ := g
    simp only [addGroupEntryR]
    by_cases h : k = c.typeName
    · rw [if_pos h, sumAdded_cons, sumAdded_cons, sumRemoved_cons, sumRemoved_cons]
      simp
      omega
    · rw [if_neg h, sumAdded_cons, sumAdded_cons, sumRemoved_cons, sumRemoved_cons]
      omega

theorem foldl_addGroupEntryA_sums (L : List ModelChange)
    (gs : List (Str × (List ModelChange × List ModelChange))) :
    sumAdded (L.foldl addGroupEntryA gs) = sumAdded gs + L.length ∧
    sumRemoved (L.foldl addGroupEntryA gs) = sumRemoved gs := by
  induction L generalizing gs with
  | nil => simp
  | cons c t ih =>
    simp only [List.foldl_cons, List.length_cons]
    obtain ⟨ha, hr⟩ := ih (addGroupEntryA gs c)
    obtain ⟨ha2, hr2⟩ := addGroupEntryA_sums gs c
    exact ⟨by rw [ha, ha2]; omega, by rw [hr, hr2]⟩

theorem foldl_addGroupEntryR_sums (L : List ModelChange)
    (gs : List (Str × (List ModelChange × List ModelChange))) :
    sumRemoved (L.foldl addGroupEntryR gs) = sumRemoved gs + L.length ∧
    sumAdded (L.foldl addGroupEntryR gs) = sumAdded gs := by
  induction L generalizing gs with
  | nil => simp
  | cons c t ih =>
    simp only [List.foldl_cons, List.length_cons]
    obtain ⟨hr, ha⟩ := ih (addGroupEntryR gs c)
    obtain ⟨hr2, ha2⟩ := addGroupEntryR_sums gs c
    exact ⟨by rw [hr, hr2]; omega, by rw [ha, ha2]⟩

theorem relationsByType_sums (A R : List ModelChange) :
    sumAdded (relationsByType A R) = A.length ∧
    sumRemoved (relationsByType A R) = R.length := by
  unfold relationsByType
  obtain ⟨hr, ha⟩ := foldl_addGroupEntryR_sums R (A.foldl addGroupEntryA [])
  obtain ⟨ha2, hr2⟩ := foldl_addGroupEntryA_sums A []
  constructor
  · rw [ha, ha2]; simp [sumAdded]
  · rw [hr, hr2]; simp [sumRemoved]

theorem addGroupEntryA_inv (P Q : ModelChange → Prop)
    (gs : List (Str × (List ModelChange × List ModelChange))) (c : ModelChange)
    (hgs : ∀ g ∈ gs, (∀ x ∈ g.2.1, P x) ∧ (∀ x ∈ g.2.2, Q x)) (hc : P c) :
    ∀ g ∈ addGroupEntryA gs c, (∀ x ∈ g.2.1, P x) ∧ (∀ x ∈ g.2.2, Q x) := by
  induction gs with
  | nil =>
    intro g hg
    simp only [addGroupEntryA, List.mem_singleton] at hg
    subst hg
    refine ⟨?_, ?_⟩
    · intro x hx
      simp only [List.mem_singleton] at hx
      subst hx
      exact hc
    · intro x hx
      simp at hx
  | cons g0 rest ih =>
    intro g hg
    obtain ⟨k, e⟩ := g0
    simp only [addGroupEntryA] at hg
    by_cases h : k = c.typeName
    · rw [if_pos h] at hg
      rcases List.mem_cons.mp hg with rfl | hm
      · refine ⟨?_, (hgs (k, e) (List.mem_cons_self _ _)).2⟩
        intro x hx
        rcases List.mem_append.mp hx with h1 | h1
        · exact (hgs (k, e) (List.mem_cons_self _ _)).1 x h1
        · simp only [List.mem_singleton] at h1
          subst h1
          exact hc
      · exact hgs g (List.mem_cons_of_mem _ hm)
    · rw [if_neg h] at hg
      rcases List.mem_cons.mp hg with rfl | hm
      · exact hgs (k, e) (List.mem_cons_self _ _)
      · exact ih (fun g2 hg2 => hgs g2 (List.mem_cons_of_mem _ hg2)) g hm

theorem addGroupEntryR_inv (P Q : ModelChange → Prop)
    (gs : List (Str × (List ModelChange × List ModelChange))) (c : ModelChange)
    (hgs : ∀ g ∈ gs, (∀ x ∈ g.2.1, P x) ∧ (∀ x ∈ g.2.2, Q x)) (hc : Q c) :
    ∀ g ∈ addGroupEntryR gs c, (∀ x ∈ g.2.1, P x) ∧ (∀ x ∈ g.2.2, Q x) := by
  induction gs with
  | nil =>
    intro g hg
    simp only [addGroupEntryR, List.mem_singleton] at hg
    subst hg
    refine ⟨?_, ?_⟩
    · intro x hx
      simp at hx
    · intro x hx
      simp only [List.mem_singleton] at hx
      subst hx
      exact hc
  | cons g0 rest ih =>
    intro g hg
    obtain ⟨k, e⟩ := g0
    simp only [addGroupEntryR] at hg
    by_cases h : k = c.typeName
    · rw [if_pos h] at hg
      rcases List.mem_cons.mp hg with rfl | hm
      · refine ⟨(hgs (k, e) (List.mem_cons_self _ _)).1, ?_⟩
        intro x hx
        rcases List.mem_append.mp hx with h1 | h1
        · exact (hgs (k, e) (List.mem_cons_self _ _)).2 x h1
        · simp only [List.mem_singleton] at h1
          subst h1
          exact hc
      · exact hgs g (List.mem_cons_of_mem _ hm)
    · rw [if_neg h] at hg
      rcases List.mem_cons.mp hg with rfl | hm
      · exact hgs (k, e) (List.mem_cons_self _ _)
      · exact ih (fun g2 hg2 => hgs g2 (List.mem_cons_of_mem _ hg2)) g hm

theorem foldl_addGroupEntryA_inv (P Q : ModelChange → Prop) (L : List ModelChange)
    (gs : List (Str × (List ModelChange × List ModelChange)))
    (hL : ∀ c ∈ L, P c)
    (hgs : ∀ g ∈ gs, (∀ x ∈ g.2.1, P x) ∧ (∀ x ∈ g.2.2, Q x)) :
    ∀ g ∈ L.foldl addGroupEntryA gs, (∀ x ∈ g.2.1, P x) ∧ (∀ x ∈ g.2.2, Q x) := by
  induction L generalizing gs with
  | nil => exact hgs
  | cons c t ih =>
    simp only [List.foldl_cons]
    exact ih (addGroupEntryA gs c) (fun x hx => hL x (List.mem_cons_of_mem _ hx))
      (addGroupEntryA_inv P Q gs c hgs (hL c (List.mem_cons_self _ _)))

theorem foldl_addGroupEntryR_inv (P Q : ModelChange → Prop) (L : List ModelChange)
    (gs : List (Str × (List ModelChange × List ModelChange)))
    (hL : ∀ c ∈ L, Q c)
    (hgs : ∀ g ∈ gs, (∀ x ∈ g.2.1, P x) ∧ (∀ x ∈ g.2.2, Q x)) :
    ∀ g ∈ L.foldl addGroupEntryR gs, (∀ x ∈ g.2.1, P x) ∧ (∀ x ∈ g.2.2, Q x) := by
  induction L generalizing gs with
  | nil => exact hgs
  | cons c t ih =>
    simp only [List.foldl_cons]
    exact ih (addGroupEntryR gs c) (fun x hx => hL x (List.mem_cons_of_mem _ hx))
      (addGroupEntryR_inv P Q gs c hgs (hL c (List.mem_cons_self _ _)))

theorem relationsByType_inv (P Q : ModelChange → Prop) (A R : List ModelChange)
    (hA : ∀ c ∈ A, P c) (hR : ∀ c ∈ R, Q c) :
    ∀ g ∈ relationsByType A R, (∀ x ∈ g.2.1, P x) ∧ (∀ x ∈ g.2.2, Q x) := by
  unfold relationsByType
  exact foldl_addGroupEntryR_inv P Q R _ hR
    (foldl_addGroupEntryA_inv P Q A [] hA (by intro g hg; simp at hg))

theorem groups_conservation (groups : List (Str × (List ModelChange × List ModelChange)))
    (h : ∀ g ∈ groups, (∀ x ∈ g.2.1, isRenameChange x = false) ∧
        (∀ x ∈ g.2.2, isRenameChange x = false)) :
    ((groups.map processRelGroup).flatten).length +
      ((groups.map processRelGroup).flatten).countP isRenameChange =
      sumRemoved groups + sumAdded groups ∧
    ∀ c ∈ (groups.map processRelGroup).flatten,
      isRenameChange c = true ∨ ∃ g ∈ groups, c ∈ g.2.2 ∨ c ∈ g.2.1 := by
  induction groups with
  | nil => simp [sumAdded, sumRemoved]
  | cons g rest ih =>
    have hg := h g (List.mem_cons_self _ _)
    have hmk : ∀ r a b, isRenameChange (mkRenRel g.1 r a b) = true := fun r a b => rfl
    obtain ⟨hs1, hs2⟩ := segOf_conservation scoreRel (mkRenRel g.1) g.2.1 g.2.2 hmk hg.1 hg.2
    obtain ⟨ih1, ih2⟩ := ih (fun g2 hg2 => h g2 (List.mem_cons_of_mem _ hg2))
    constructor
    · simp only [List.map_cons, List.flatten_cons, List.length_append, List.countP_append,
        sumAdded_cons, sumRemoved_cons, processRelGroup_eq_segOf]
      omega
    · intro c hc
      simp only [List.map_cons, List.flatten_cons, List.mem_append,
        processRelGroup_eq_segOf] at hc
      rcases hc with hin | hin
      · rcases hs2 c hin with hr | hio
        · exact Or.inl hr
        · exact Or.inr ⟨g, List.mem_cons_self _ _, hio⟩
      · rcases ih2 c hin with hr | ⟨g2, hg2, hio⟩
        · exact Or.inl hr
        · exact Or.inr ⟨g2, List.mem_cons_of_mem _ hg2, hio⟩

theorem grouped_not_ren (c : ModelChange) (h : isGrouped c = true) :
    isRenameChange c = false := by
  cases hc : c.type <;> simp [isGrouped, isRenameChange, hc] at h ⊢

theorem ren_not_grouped (c : ModelChange) (h : isRenameChange c = true) :
    isGrouped c = false := by
  cases hc : c.type <;> simp [isGrouped, isRenameChange, hc] at h ⊢

theorem countP_not_add (l : List ModelChange) (p : ModelChange → Bool) :
    l.countP (fun c => !(p c)) + l.countP p = l.length := by
  induction l with
  | nil => rfl
  | cons c t ih =>
    simp only [List.countP_cons, List.length_cons]
    cases h : p c <;> simp [h] <;> omega

theorem countP_grouped_split (l : List ModelChange) :
    l.countP isGrouped =
      l.countP (fun c => c.type == ChangeType.addType) +
      l.countP (fun c => c.type == ChangeType.removeType) +
      l.countP (fun c => c.type == ChangeType.addRelation) +
      l.countP (fun c => c.type == ChangeType.removeRelation) := by
  induction l with
  | nil => rfl
  | cons c t ih =>
    simp only [List.countP_cons]
    cases hc : c.type <;> simp [isGrouped, hc, ih] <;> omega

theorem countP_ren_filter (l : List ModelChange) :
    (l.filter (fun c => !(isGrouped c))).countP isRenameChange =
      l.countP isRenameChange := by
  induction l with
  | nil => rfl
  | cons c t ih =>
    cases hg : isGrouped c
    · simp [List.filter_cons, List.countP_cons, hg, ih]
    · simp [List.filter_cons, List.countP_cons, hg, grouped_not_ren c hg, ih]

theorem detect_eq (changes : List ModelChange) (oldState newState : Option ModelState) :
    DetectPotentialRenames changes oldState newState =
      changes.filter (fun c => !(isGrouped c)) ++
      segOf (scoreType oldState newState) mkRenType
        (changes.filter (fun c => c.type == ChangeType.addType))
        (changes.filter (fun c => c.type == ChangeType.removeType)) ++
      ((relationsByType (changes.filter (fun c => c.type == ChangeType.addRelation))
        (changes.filter (fun c => c.type == ChangeType.removeRelation))).map
        processRelGroup).flatten := rfl

set_option maxRecDepth 10000 in
/-- **C1** (refuted — code bug): the type-level pass does not always pick the
candidate with the highest tier. On input `[removeType team, addType teams,
addType txxm]` the candidate `teams` scores High and `txxm` scores Medium, yet
the Go comparison `confidence > bestConfidence` compares the tier STRINGS
lexicographically (`"medium" > "high"`), so the emitted rename pairs `team`
with the Medium candidate `txxm` and the High candidate `teams` is left as a
plain addition. -/
theorem c1_tier_selection_bug :
    (scoreType (some c1OldState) (some c1NewState) c1Removed c1AddedHigh).1 =
      ConfidenceLevel.high ∧
    (scoreType (some c1OldState) (some c1NewState) c1Removed c1AddedMedium).1 =
      ConfidenceLevel.medium ∧
    confGtGo ConfidenceLevel.medium ConfidenceLevel.high = true ∧
    (DetectPotentialRenames [c1Removed, c1AddedHigh, c1AddedMedium]
        (some c1OldState) (some c1NewState)).map
      (fun c => (c.type, c.typeName, c.oldValue, c.newValue, c.confidence)) =
      [(ChangeType.renameType, strL "team", strL "team", strL "txxm",
          ConfidenceLevel.medium),
        (ChangeType.addType, strL "teams", [], [], ConfidenceLevel.none)] := by
  refine ⟨by decide, by decide, by decide, by decide⟩

theorem matchedOf_length (l : List ModelChange) (flags : List Bool)
    (h : flags.length = l.length) :
    (matchedOf l flags).length = flags.countP (fun b => b) := by
  induction l generalizing flags with
  | nil =>
    cases flags with
    | nil => rfl
    | cons b fs => simp at h
  | cons c t ih =>
    cases flags with
    | nil => simp at h
    | cons b fs =>
      have h' : fs.length = t.length := by simpa using h
      cases b
      · rw [show matchedOf (c :: t) (false :: fs) = matchedOf t fs from rfl,
          ih fs h', List.countP_cons]
        simp
      · rw [show matchedOf (c :: t) (true :: fs) = c :: matchedOf t fs from rfl,
          List.length_cons, ih fs h', List.countP_cons]
        simp

theorem matchedOf_mem (l : List ModelChange) (flags : List Bool) (c : ModelChange)
    (h : c ∈ matchedOf l flags) : c ∈ l := by
  induction l generalizing flags with
  | nil => simp [matchedOf] at h
  | cons a t ih =>
    cases flags with
    | nil => simp [matchedOf] at h
    | cons b fs =>
      cases b
      · simp only [matchedOf, List.zip_cons_cons, List.filterMap_cons] at h
        exact List.mem_cons_of_mem _ (ih fs h)
      · simp only [matchedOf, List.zip_cons_cons, List.filterMap_cons] at h
        rcases List.mem_cons.mp h with rfl | hm
        · exact List.mem_cons_self _ _
        · exact List.mem_cons_of_mem _ (ih fs hm)

theorem coe_matched_unmatched (l : List ModelChange) (flags : List Bool)
    (h : flags.length = l.length) :
    (↑l : Multiset ModelChange) = ↑(matchedOf l flags) + ↑(unmatchedOf l flags) := by
  induction l generalizing flags with
  | nil => rfl
  | cons c t ih =>
    cases flags with
    | nil => simp at h
    | cons b fs =>
      have h' : fs.length = t.length := by simpa using h
      cases b
      · rw [show matchedOf (c :: t) (false :: fs) = matchedOf t fs from rfl,
          show unmatchedOf (c :: t) (false :: fs) = c :: unmatchedOf t fs from rfl,
          ← Multiset.cons_coe, ← Multiset.cons_coe, Multiset.add_cons, ih fs h']
      · rw [show matchedOf (c :: t) (true :: fs) = c :: matchedOf t fs from rfl,
          show unmatchedOf (c :: t) (true :: fs) = unmatchedOf t fs from rfl,
          ← Multiset.cons_coe, ← Multiset.cons_coe, Multiset.cons_add, ih fs h']

theorem matchLoop_decomp (score : ModelChange → ModelChange → (ConfidenceLevel × ℚ × ℚ))
    (mkRen : ModelChange → ModelChange → BestT → ModelChange)
    (addedL removals : List ModelChange) :
    ∃ mR mA pass : List ModelChange,
      (↑removals + ↑addedL : Multiset ModelChange) = ↑mR + ↑mA + ↑pass ∧
      (↑(segOf score mkRen addedL removals) : Multiset ModelChange) =
        ↑(matchLoop score mkRen addedL removals
            (List.replicate addedL.length false)).1 + ↑pass ∧
      (matchLoop score mkRen addedL removals
          (List.replicate addedL.length false)).1.length = mR.length ∧
      (matchLoop score mkRen addedL removals
          (List.replicate addedL.length false)).1.length = mA.length ∧
      (∀ c ∈ mR, c ∈ removals) ∧ (∀ c ∈ mA, c ∈ addedL) := by
  have hlen0 : (List.replicate addedL.length (false : Bool)).length = addedL.length := by
    simp
  obtain ⟨h1, h2, h3, h4, h5⟩ := matchLoop_spec score mkRen addedL removals
    (List.replicate addedL.length false) hlen0
  set res := matchLoop score mkRen addedL removals (List.replicate addedL.length false)
    with hres
  have h3' : res.2.2.length = addedL.length := by rw [h3, hlen0]
  have h4' : res.2.2.countP (fun b => b) = res.1.length := by
    rw [h4, countP_replicate_false]
    omega
  refine ⟨matchedOf removals res.2.1, matchedOf addedL res.2.2,
    unmatchedOf removals res.2.1 ++ unmatchedOf addedL res.2.2, ?_, ?_, ?_, ?_, ?_, ?_⟩
  · rw [coe_matched_unmatched removals res.2.1 h1,
      coe_matched_unmatched addedL res.2.2 h3',
      show ((↑(unmatchedOf removals res.2.1 ++ unmatchedOf addedL res.2.2)
          : Multiset ModelChange)) =
        ↑(unmatchedOf removals res.2.1) + ↑(unmatchedOf addedL res.2.2) from rfl]
    abel
  · rw [show ((↑(segOf score mkRen addedL removals)) : Multiset ModelChange) =
      ↑res.1 + ↑(unmatchedOf removals res.2.1) + ↑(unmatchedOf addedL res.2.2)
        from rfl]
    rw [show ((↑(unmatchedOf removals res.2.1 ++ unmatchedOf addedL res.2.2)
        : Multiset ModelChange)) =
      ↑(unmatchedOf removals res.2.1) + ↑(unmatchedOf addedL res.2.2) from rfl]
    abel
  · rw [matchedOf_length removals res.2.1 h1, h2]
  · rw [matchedOf_length addedL res.2.2 h3', h4']
  · exact fun c hc => matchedOf_mem removals res.2.1 c hc
  · exact fun c hc => matchedOf_mem addedL res.2.2 c hc

theorem processRelGroup_decomp (g : Str × (List ModelChange × List ModelChange)) :
    ∃ mR mA ren pass : List ModelChange,
      (↑g.2.2 + ↑g.2.1 : Multiset ModelChange) = ↑mR + ↑mA + ↑pass ∧
      (↑(processRelGroup g) : Multiset ModelChange) = ↑ren + ↑pass ∧
      ren.length = mR.length ∧ ren.length = mA.length ∧
      (∀ c ∈ ren, isRenameChange c = true) ∧
      (∀ c ∈ mR, c ∈ g.2.2) ∧ (∀ c ∈ mA, c ∈ g.2.1) := by
  obtain ⟨mR, mA, pass, e1, e2, l1, l2, hmR, hmA⟩ :=
    matchLoop_decomp scoreRel (mkRenRel g.1) g.2.1 g.2.2
  have hlen0 : (List.replicate g.2.1.length (false : Bool)).length = g.2.1.length := by
    simp
  obtain ⟨_, _, _, _, h5⟩ := matchLoop_spec scoreRel (mkRenRel g.1) g.2.1 g.2.2
    (List.replicate g.2.1.length false) hlen0
  refine ⟨mR, mA,
    (matchLoop scoreRel (mkRenRel g.1) g.2.1 g.2.2
      (List.replicate g.2.1.length false)).1, pass, e1, ?_, l1, l2, ?_, hmR, hmA⟩
  · rw [processRelGroup_eq_segOf]
    exact e2
  · intro c hc
    obtain ⟨r, a, b, rfl⟩ := h5 c hc
    rfl

theorem groups_decomp (groups : List (Str × (List ModelChange × List ModelChange))) :
    ∃ mR mA ren pass : List ModelChange,
      (↑((groups.map (fun g => g.2.2)).flatten) +
        ↑((groups.map (fun g => g.2.1)).flatten) : Multiset ModelChange) =
        ↑mR + ↑mA + ↑pass ∧
      (↑((groups.map processRelGroup).flatten) : Multiset ModelChange) =
        ↑ren + ↑pass ∧
      ren.length = mR.length ∧ ren.length = mA.length ∧
      (∀ c ∈ ren, isRenameChange c = true) ∧
      (∀ c ∈ mR, ∃ g ∈ groups, c ∈ g.2.2) ∧
      (∀ c ∈ mA, ∃ g ∈ groups, c ∈ g.2.1) := by
  induction groups with
  | nil =>
    refine ⟨[], [], [], [], rfl, rfl, rfl, rfl, ?_, ?_, ?_⟩ <;> intro c hc <;> simp at hc
  | cons g rest ih =>
    obtain ⟨mR0, mA0, ren0, pass0, e1, e2, l1, l2, hren0, hmR0, hmA0⟩ :=
      processRelGroup_decomp g
    obtain ⟨mR1, mA1, ren1, pass1, f1, f2, k1, k2, hren1, hmR1, hmA1⟩ := ih
    refine ⟨mR0 ++ mR1, mA0 ++ mA1, ren0 ++ ren1, pass0 ++ pass1, ?_, ?_, ?_, ?_, ?_, ?_, ?_⟩
    · show (↑g.2.2 + ↑((rest.map (fun g2 => g2.2.2)).flatten) : Multiset ModelChange) +
          (↑g.2.1 + ↑((rest.map (fun g2 => g2.2.1)).flatten)) =
          ↑mR0 + ↑mR1 + (↑mA0 + ↑mA1) + (↑pass0 + ↑pass1)
      rw [add_add_add_comm, e1, f1]
      abel
    · show (↑(processRelGroup g) + ↑((rest.map processRelGroup).flatten)
            : Multiset ModelChange) =
          ↑ren0 + ↑ren1 + (↑pass0 + ↑pass1)
      rw [e2, f2, add_add_add_comm]
    · simp only [List.length_append]
      omega
    · simp only [List.length_append]
      omega
    · intro c hc
      rcases List.mem_append.mp hc with hm | hm
      · exact hren0 c hm
      · exact hren1 c hm
    · intro c hc
      rcases List.mem_append.mp hc with hm | hm
      · exact ⟨g, List.mem_cons_self _ _, hmR0 c hm⟩
      · obtain ⟨g2, hg2, hcg⟩ := hmR1 c hm
        exact ⟨g2, List.mem_cons_of_mem _ hg2, hcg⟩
    · intro c hc
      rcases List.mem_append.mp hc with hm | hm
      · exact ⟨g, List.mem_cons_self _ _, hmA0 c hm⟩
      · obtain ⟨g2, hg2, hcg⟩ := hmA1 c hm
        exact ⟨g2, List.mem_cons_of_mem _ hg2, hcg⟩

theorem addGroupEntryA_flatA (gs : List (Str × (List ModelChange × List ModelChange)))
    (c : ModelChange) :
    (↑(((addGroupEntryA gs c).map (fun g => g.2.1)).flatten) : Multiset ModelChange) =
      c ::ₘ ↑((gs.map (fun g => g.2.1)).flatten) := by
  induction gs with
  | nil =>
    show (↑([c] ++ ([] : List ModelChange)) : Multiset ModelChange) = c ::ₘ ↑([] : List ModelChange)
    rfl
  | cons g0 rest ih =>
    obtain ⟨k, e⟩ := g0
    simp only [addGroupEntryA]
    by_cases h : k = c.typeName
    · rw [if_pos h]
      show (↑(e.1 ++ [c]) + ↑((rest.map (fun g => g.2.1)).flatten) : Multiset ModelChange) =
        c ::ₘ (↑e.1 + ↑((rest.map (fun g => g.2.1)).flatten))
      rw [show (↑(e.1 ++ [c]) : Multiset ModelChange) = ↑e.1 + (c ::ₘ 0) from rfl,
        Multiset.add_cons, Multiset.cons_add, add_zero]
    · rw [if_neg h]
      show (↑e.1 + ↑(((addGroupEntryA rest c).map (fun g => g.2.1)).flatten)
          : Multiset ModelChange) =
        c ::ₘ (↑e.1 + ↑((rest.map (fun g => g.2.1)).flatten))
      rw [ih, Multiset.add_cons]

theorem addGroupEntryA_flatR (gs : List (Str × (List ModelChange × List ModelChange)))
    (c : ModelChange) :
    ((addGroupEntryA gs c).map (fun g => g.2.2)).flatten =
      (gs.map (fun g => g.2.2)).flatten := by
  induction gs with
  | nil => rfl
  | cons g0 rest ih =>
    obtain ⟨k, e⟩ := g0
    simp only [addGroupEntryA]
    by_cases h : k = c.typeName
    · rw [if_pos h]
      rfl
    · rw [if_neg h]
      simp only [List.map_cons, List.flatten_cons, ih]

theorem addGroupEntryR_flatR (gs : List (Str × (List ModelChange × List ModelChange)))
    (c : ModelChange) :
    (↑(((addGroupEntryR gs c).map (fun g => g.2.2)).flatten) : Multiset ModelChange) =
      c ::ₘ ↑((gs.map (fun g => g.2.2)).flatten) := by
  induction gs with
  | nil =>
    show (↑([c] ++ ([] : List ModelChange)) : Multiset ModelChange) = c ::ₘ ↑([] : List ModelChange)
    rfl
  | cons g0 rest ih =>
    obtain ⟨k, e⟩ := g0
    simp only [addGroupEntryR]
    by_cases h : k = c.typeName
    · rw [if_pos h]
      show (↑(e.2 ++ [c]) + ↑((rest.map (fun g => g.2.2)).flatten) : Multiset ModelChange) =
        c ::ₘ (↑e.2 + ↑((rest.map (fun g => g.2.2)).flatten))
      rw [show (↑(e.2 ++ [c]) : Multiset ModelChange) = ↑e.2 + (c ::ₘ 0) from rfl,
        Multiset.add_cons, Multiset.cons_add, add_zero]
    · rw [if_neg h]
      show (↑e.2 + ↑(((addGroupEntryR rest c).map (fun g => g.2.2)).flatten)
          : Multiset ModelChange) =
        c ::ₘ (↑e.2 + ↑((rest.map (fun g => g.2.2)).flatten))
      rw [ih, Multiset.add_cons]

theorem addGroupEntryR_flatA (gs : List (Str × (List ModelChange × List ModelChange)))
    (c : ModelChange) :
    ((addGroupEntryR gs c).map (fun g => g.2.1)).flatten =
      (gs.map (fun g => g.2.1)).flatten := by
  induction gs with
  | nil => rfl
  | cons g0 rest ih =>
    obtain ⟨k, e⟩ := g0
    simp only [addGroupEntryR]
    by_cases h : k = c.typeName
    · rw [if_pos h]
      rfl
    · rw [if_neg h]
      simp only [List.map_cons, List.flatten_cons, ih]

theorem foldl_addGroupEntryA_flatA (L : List ModelChange)
    (gs : List (Str × (List ModelChange × List ModelChange))) :
    (↑(((L.foldl addGroupEntryA gs).map (fun g => g.2.1)).flatten) : Multiset ModelChange) =
      ↑L + ↑((gs.map (fun g => g.2.1)).flatten) := by
  induction L generalizing gs with
  | nil =>
    show (↑((gs.map (fun g => g.2.1)).flatten) : Multiset ModelChange) =
      ↑([] : List ModelChange) + ↑((gs.map (fun g => g.2.1)).flatten)
    rw [show (↑([] : List ModelChange) : Multiset ModelChange) = 0 from rfl, zero_add]
  | cons c t ih =>
    show (↑(((t.foldl addGroupEntryA (addGroupEntryA gs c)).map
        (fun g => g.2.1)).flatten) : Multiset ModelChange) =
      ↑(c :: t) + ↑((gs.map (fun g => g.2.1)).flatten)
    rw [ih (addGroupEntryA gs c), addGroupEntryA_flatA,
      Multiset.add_cons, ← Multiset.cons_coe, Multiset.cons_add]

theorem foldl_addGroupEntryA_flatR (L : List ModelChange)
    (gs : List (Str × (List ModelChange × List ModelChange))) :
    ((L.foldl addGroupEntryA gs).map (fun g => g.2.2)).flatten =
      (gs.map (fun g => g.2.2)).flatten := by
  induction L generalizing gs with
  | nil => rfl
  | cons c t ih =>
    show ((t.foldl addGroupEntryA (addGroupEntryA gs c)).map (fun g => g.2.2)).flatten =
      (gs.map (fun g => g.2.2)).flatten
    rw [ih (addGroupEntryA gs c), addGroupEntryA_flatR]

theorem foldl_addGroupEntryR_flatR (L : List ModelChange)
    (gs : List (Str × (List ModelChange × List ModelChange))) :
    (↑(((L.foldl addGroupEntryR gs).map (fun g => g.2.2)).flatten) : Multiset ModelChange) =
      ↑L + ↑((gs.map (fun g => g.2.2)).flatten) := by
  induction L generalizing gs with
  | nil =>
    show (↑((gs.map (fun g => g.2.2)).flatten) : Multiset ModelChange) =
      ↑([] : List ModelChange) + ↑((gs.map (fun g => g.2.2)).flatten)
    rw [show (↑([] : List ModelChange) : Multiset ModelChange) = 0 from rfl, zero_add]
  | cons c t ih =>
    show (↑(((t.foldl addGroupEntryR (addGroupEntryR gs c)).map
        (fun g => g.2.2)).flatten) : Multiset ModelChange) =
      ↑(c :: t) + ↑((gs.map (fun g => g.2.2)).flatten)
    rw [ih (addGroupEntryR gs c), addGroupEntryR_flatR,
      Multiset.add_cons, ← Multiset.cons_coe, Multiset.cons_add]

theorem foldl_addGroupEntryR_flatA (L : List ModelChange)
    (gs : List (Str × (List ModelChange × List ModelChange))) :
    ((L.foldl addGroupEntryR gs).map (fun g => g.2.1)).flatten =
      (gs.map (fun g => g.2.1)).flatten := by
  induction L generalizing gs with
  | nil => rfl
  | cons c t ih =>
    show ((t.foldl addGroupEntryR (addGroupEntryR gs c)).map (fun g => g.2.1)).flatten =
      (gs.map (fun g => g.2.1)).flatten
    rw [ih (addGroupEntryR gs c), addGroupEntryR_flatA]

theorem relationsByType_flatA (A R : List ModelChange) :
    (↑(((relationsByType A R).map (fun g => g.2.1)).flatten) : Multiset ModelChange) =
      ↑A := by
  unfold relationsByType
  rw [foldl_addGroupEntryR_flatA, foldl_addGroupEntryA_flatA,
    show (↑((([] : List (Str × (List ModelChange × List ModelChange))).map
      (fun g => g.2.1)).flatten) : Multiset ModelChange) = 0 from rfl, add_zero]

theorem relationsByType_flatR (A R : List ModelChange) :
    (↑(((relationsByType A R).map (fun g => g.2.2)).flatten) : Multiset ModelChange) =
      ↑R := by
  unfold relationsByType
  rw [foldl_addGroupEntryR_flatR, foldl_addGroupEntryA_flatR,
    show (↑((([] : List (Str × (List ModelChange × List ModelChange))).map
      (fun g => g.2.2)).flatten) : Multiset ModelChange) = 0 from rfl, add_zero]

theorem coe_changes_partition (l : List ModelChange) :
    (↑l : Multiset ModelChange) =
      ↑(l.filter (fun c => !(isGrouped c))) +
      ↑(l.filter (fun c => c.type == ChangeType.addType)) +
      ↑(l.filter (fun c => c.type == ChangeType.removeType)) +
      ↑(l.filter (fun c => c.type == ChangeType.addRelation)) +
      ↑(l.filter (fun c => c.type == ChangeType.removeRelation)) := by
  induction l with
  | nil => rfl
  | cons c t ih =>
    rw [List.filter_cons, List.filter_cons, List.filter_cons, List.filter_cons,
      List.filter_cons]
    cases hc : c.type <;>
      simp only [hc, isGrouped] <;>
      simp only [show ∀ x y : ChangeType, (x == y) = decide (x = y) from fun x y => rfl] <;>
      simp +decide only [] <;>
      simp only [reduceIte] <;>
      rw [← Multiset.cons_coe, ← Multiset.cons_coe] <;>
      simp only [Multiset.cons_add, Multiset.add_cons] <;>
      rw [ih] <;>
      rfl

/-- **C7**: rename inference conserves changes. For every change list and pair
of states there are lists `consumedRem`, `consumedAdd`, `renames`,
`passthrough` such that, as multisets, the input is exactly
`consumedRem + consumedAdd + passthrough` and the output is exactly
`renames + passthrough`: every change not consumed by a match passes through
unchanged (with its multiplicity — nothing is lost or duplicated), each
matched pair of one consumed removal (a RemoveType or RemoveRelation) and one
consumed addition (an AddType or AddRelation) is replaced by exactly one
rename change (`renames`, `consumedRem` and `consumedAdd` have equal
lengths), and in particular every non-grouped change is passed through to the
output. -/
theorem detectPotentialRenames_conservation (changes : List ModelChange)
    (oldState newState : Option ModelState) :
    ∃ consumedRem consumedAdd renames passthrough : List ModelChange,
      (↑changes : Multiset ModelChange) =
        ↑consumedRem + ↑consumedAdd + ↑passthrough ∧
      (↑(DetectPotentialRenames changes oldState newState) : Multiset ModelChange) =
        ↑renames + ↑passthrough ∧
      renames.length = consumedRem.length ∧
      renames.length = consumedAdd.length ∧
      (∀ c ∈ renames, isRenameChange c = true) ∧
      (∀ c ∈ consumedRem,
        c.type = ChangeType.removeType ∨ c.type = ChangeType.removeRelation) ∧
      (∀ c ∈ consumedAdd,
        c.type = ChangeType.addType ∨ c.type = ChangeType.addRelation) ∧
      (∀ c ∈ changes, isGrouped c = false →
        c ∈ DetectPotentialRenames changes oldState newState) := by
  set aT := changes.filter (fun c => c.type == ChangeType.addType) with haT
  set rT := changes.filter (fun c => c.type == ChangeType.removeType) with hrT
  set aR := changes.filter (fun c => c.type == ChangeType.addRelation) with haR
  set rR := changes.filter (fun c => c.type == ChangeType.removeRelation) with hrR
  set enh := changes.filter (fun c => !(isGrouped c)) with henh
  set renT := (matchLoop (scoreType oldState newState) mkRenType aT rT
    (List.replicate aT.length false)).1 with hrenT
  obtain ⟨mRT, mAT, passT, e1, e2, l1, l2, hmRT, hmAT⟩ :=
    matchLoop_decomp (scoreType oldState newState) mkRenType aT rT
  obtain ⟨mRR, mAR, renR, passR, f1, f2, k1, k2, hrenR, hmRR, hmAR⟩ :=
    groups_decomp (relationsByType aR rR)
  rw [relationsByType_flatR aR rR, relationsByType_flatA aR rR] at f1
  rw [← hrenT] at l1 l2
  have hginv := relationsByType_inv (fun x => x ∈ aR) (fun x => x ∈ rR) aR rR
    (fun c hc => hc) (fun c hc => hc)
  have hmRR2 : ∀ c ∈ mRR, c ∈ rR := by
    intro c hc
    obtain ⟨g, hg, hcg⟩ := hmRR c hc
    exact (hginv g hg).2 c hcg
  have hmAR2 : ∀ c ∈ mAR, c ∈ aR := by
    intro c hc
    obtain ⟨g, hg, hcg⟩ := hmAR c hc
    exact (hginv g hg).1 c hcg
  have hrenTren : ∀ c ∈ renT, isRenameChange c = true := by
    have hlen0 : (List.replicate aT.length (false : Bool)).length = aT.length := by simp
    obtain ⟨_, _, _, _, h5T⟩ := matchLoop_spec (scoreType oldState newState) mkRenType
      aT rT (List.replicate aT.length false) hlen0
    intro c hc
    obtain ⟨r, a, b, rfl⟩ := h5T c hc
    rfl
  refine ⟨mRT ++ mRR, mAT ++ mAR, renT ++ renR, enh ++ passT ++ passR,
    ?_, ?_, ?_, ?_, ?_, ?_, ?_, ?_⟩
  · rw [coe_changes_partition changes, ← haT, ← hrT, ← haR, ← hrR, ← henh]
    show (↑enh + ↑aT + ↑rT + ↑aR + ↑rR : Multiset ModelChange) =
      (↑mRT + ↑mRR) + (↑mAT + ↑mAR) + (↑enh + ↑passT + ↑passR)
    rw [show (↑enh + ↑aT + ↑rT + ↑aR + ↑rR : Multiset ModelChange) =
      ↑enh + (↑rT + ↑aT) + (↑rR + ↑aR) from by abel, e1, f1]
    abel
  · rw [detect_eq changes oldState newState, ← haT, ← hrT, ← haR, ← hrR, ← henh]
    show (↑enh + ↑(segOf (scoreType oldState newState) mkRenType aT rT) +
        ↑(((relationsByType aR rR).map processRelGroup).flatten) : Multiset ModelChange) =
      (↑renT + ↑renR) + (↑enh + ↑passT + ↑passR)
    rw [e2, f2, ← hrenT]
    abel
  · simp only [List.length_append]
    omega
  · simp only [List.length_append]
    omega
  · intro c hc
    rcases List.mem_append.mp hc with hm | hm
    · exact hrenTren c hm
    · exact hrenR c hm
  · intro c hc
    rcases List.mem_append.mp hc with hm | hm
    · exact Or.inl (by simpa using (List.mem_filter.mp (hmRT c hm)).2)
    · exact Or.inr (by simpa using (List.mem_filter.mp (hmRR2 c hm)).2)
  · intro c hc
    rcases List.mem_append.mp hc with hm | hm
    · exact Or.inl (by simpa using (List.mem_filter.mp (hmAT c hm)).2)
    · exact Or.inr (by simpa using (List.mem_filter.mp (hmAR2 c hm)).2)
  · intro c hc hng
    rw [detect_eq changes oldState newState]
    refine List.mem_append_left _ (List.mem_append_left _ ?_)
    exact List.mem_filter.mpr ⟨hc, by simp [hng]⟩
